import Mathlib

set_option linter.unusedVariables false

/-! Verification of the file-search walker and of the JavaScript
language-mode helpers of a code-editor repository.

The first part (`FileSearch`) models the `FileWalker` class: portable
node.js recursion over a filesystem with symbolic links, the
native-command fallback, the result cap (`maxResults` / `isLimitHit`),
cancellation, and the per-root fan-out join.  The second part (`JsMode`)
models the language-mode helper functions (`convertRange`, `doResolve`,
`findDocumentSymbols`, `findDefinition`, `findReferences`) together with
the language-service host closure.

The walker in the source is continuation-passing asynchronous code that
runs on a single event-processing thread with run-to-completion turns.
It is embedded here as a sequential interpreter: every asynchronous
filesystem callback (stat / readdir / lstat / realpath / subprocess
close) is one turn, counted by a `turn` field, and an oracle
`cancelAt : Nat -> Bool` records at which turn boundaries a `cancel()`
call arrives, exactly as the event loop would deliver it between
callbacks.  External utilities that live outside the modelled sources
(the glob matcher `glob.match`, the fuzzy matcher
`filters.matchesFuzzy`, the `fs.stat` answers for the two file-pattern
probes, and the line output of the native subprocess) are supplied as
oracle functions in the configuration and environment. -/

namespace FileSearch

/-- Filesystem paths, as lists of segments (the source joins segments
with the platform separator and the model works on segment lists). -/
abbrev Path := List String

mutual
/-- A node of the real filesystem.  `dir` nodes carry an identity used to
resolve symbolic links (`link t` points at the directory whose id is
`t`); `bad c` is a node whose directory read fails with error code `c`;
a directory read of a `file` fails with code ENOTDIR.  A symbolic link
to a file is represented directly as a `file` entry, because the walker
treats it identically (readdir fails with ENOTDIR, no realpath is
taken). -/
inductive FSEntry : Type where
  | file : FSEntry
  | bad : String → FSEntry
  | dir : Nat → FSEntries → FSEntry
  | link : Nat → FSEntry
/-- The named children of a directory, in listing order. -/
inductive FSEntries : Type where
  | nil : FSEntries
  | cons : String → FSEntry → FSEntries → FSEntries
end

/-- The filesystem visible to one walk: each root path paired with the
entry found at that path.  Symbolic links are resolved against the real
directory trees below these roots. -/
structure FSModel : Type where
  roots : List (Path × FSEntry)

/-- Names of a child list, in order (the `files` array of a readdir). -/
def FSEntries.names : FSEntries → List String
  | .nil => []
  | .cons n _ rest => n :: FSEntries.names rest

mutual
/-- Size (number of nodes) of an entry; used for termination bounds. -/
def sizeE : FSEntry → Nat
  | .dir _ ch => 1 + sizeL ch
  | _ => 1
/-- Size of a child list. -/
def sizeL : FSEntries → Nat
  | .nil => 0
  | .cons _ e rest => sizeE e + sizeL rest
end

/-- Total size of the forest below all roots. -/
def rootsSize : List (Path × FSEntry) → Nat
  | [] => 0
  | r :: rest => sizeE r.2 + rootsSize rest

mutual
/-- Canonical (real) paths of the directories inside an entry whose own
canonical path is `pre`. -/
def canonE (pre : Path) : FSEntry → List Path
  | .dir _ ch => pre :: canonL pre ch
  | _ => []
/-- Canonical paths of the directories inside a child list of the
directory whose canonical path is `pre`. -/
def canonL (pre : Path) : FSEntries → List Path
  | .nil => []
  | .cons n e rest => canonE (pre ++ [n]) e ++ canonL pre rest
end

/-- Canonical paths of every directory of the filesystem. -/
def canonAll (fs : FSModel) : List Path :=
  (fs.roots.map (fun r => canonE r.1 r.2)).flatten

mutual
/-- Search an entry (whose canonical path is `pre`) for the directory
with id `t`; answer its canonical path and children.  Mirrors what
`fs.realpath` computes for a symbolic-link target: resolution goes
through the real tree only, never through links. -/
def findE (t : Nat) (pre : Path) : FSEntry → Option (Path × FSEntries)
  | .dir i ch => if i = t then some (pre, ch) else findL t pre ch
  | _ => none
/-- Search a child list for the directory with id `t`. -/
def findL (t : Nat) (pre : Path) : FSEntries → Option (Path × FSEntries)
  | .nil => none
  | .cons n e rest =>
    match findE t (pre ++ [n]) e with
    | some r => some r
    | none => findL t pre rest
end

/-- Walk the root list in order looking for the directory with id `t`. -/
def resolveRoots (t : Nat) : List (Path × FSEntry) → Option (Path × FSEntries)
  | [] => none
  | r :: rest =>
    match findE t r.1 r.2 with
    | some pr => some pr
    | none => resolveRoots t rest

/-- Resolve a symbolic-link target id against the whole filesystem. -/
def FSModel.resolveLink (fs : FSModel) (t : Nat) : Option (Path × FSEntries) :=
  resolveRoots t fs.roots

/-- Result of `extfs.readdir` on an entry: the children on a directory
(following a link to a directory), error code ENOTDIR on a file, ENOENT
on a broken link, and the recorded code on a `bad` node. -/
def readdirE (fs : FSModel) : FSEntry → Except String FSEntries
  | .file => .error "ENOTDIR"
  | .bad c => .error c
  | .dir _ ch => .ok ch
  | .link t =>
    match fs.resolveLink t with
    | some pr => .ok pr.2
    | none => .error "ENOENT"

/-- A file pattern, as its separator-split segments plus whether the raw
string was an absolute path (`paths.isAbsolute`).  The empty raw pattern
is falsy in the source and is modelled as `none` at the `Option` level. -/
structure FilePattern : Type where
  segs : List String
  absolute : Bool
  deriving DecidableEq

/-- The search configuration (`IRawSearch`), restricted to the fields the
walker reads.  The glob expressions and the fuzzy matcher are external
utilities (vs/base/common/glob, vs/base/common/filters) and are supplied
as oracle functions: a glob oracle answers `glob.match(pattern, path,
siblings)`, and `fuzzyMatcher pat candidate fuzzy` answers whether
`filters.matchesFuzzy(pattern, candidate, fuzzy)` returns a non-empty
match list.  `maxResults = 0` plays the role of an unset field (the
source coerces falsy `config.maxResults` to `null`). -/
structure RawSearch : Type where
  filePattern : Option FilePattern
  excludePattern : Option (Path → List String → Bool)
  includePattern : Option (Path → List String → Bool)
  maxResults : Nat
  matchFuzzy : Bool
  disableFastFileLookup : Bool
  fuzzyMatcher : FilePattern → List String → Bool → Bool

/-- The fields a `FileWalker` instance derives from its configuration in
the constructor. -/
structure Walker : Type where
  rawFilePattern : Option FilePattern
  filePattern : Option FilePattern
  searchInPath : Bool
  excludePattern : Option (Path → List String → Bool)
  includePattern : Option (Path → List String → Bool)
  maxResults : Option Nat
  matchFuzzy : Bool
  disableFastFileLookup : Bool
  fuzzyMatcher : FilePattern → List String → Bool → Bool

/-- The `FileWalker` constructor: copies the configuration, coerces a
falsy `maxResults` to null, and sets `searchInPath` when the pattern
contains a path separator (an absolute pattern always does; a relative
one does exactly when it has at least two segments).  The source also
normalizes backslashes to slashes, which the segment representation
already abstracts. -/
def mkWalker (cfg : RawSearch) : Walker :=
  { rawFilePattern := cfg.filePattern
    filePattern := cfg.filePattern
    searchInPath :=
      match cfg.filePattern with
      | some p => p.absolute || decide (2 ≤ p.segs.length)
      | none => false
    excludePattern := cfg.excludePattern
    includePattern := cfg.includePattern
    maxResults := if cfg.maxResults = 0 then none else some cfg.maxResults
    matchFuzzy := cfg.matchFuzzy
    disableFastFileLookup := cfg.disableFastFileLookup
    fuzzyMatcher := cfg.fuzzyMatcher }

/-- The mutable per-walker state.  `walkedPaths`, `resultCount`,
`isLimitHit`, `isCanceled` and `runningNative` mirror the source fields
(`runningNative` records whether a native subprocess is alive); `turn`
counts asynchronous callback boundaries and `fuelOut` is model-only
bookkeeping recording whether the recursion-depth fuel ran out. -/
structure WalkerState : Type where
  walkedPaths : List Path
  resultCount : Nat
  isLimitHit : Bool
  isCanceled : Bool
  runningNative : Bool
  turn : Nat
  fuelOut : Bool
  deriving DecidableEq

/-- A walker state before any walk: nothing walked, nothing counted, no
flag set. -/
def freshState : WalkerState :=
  ⟨[], 0, false, false, false, 0, false⟩

/-- The `resetState` method: clears `walkedPaths`, `resultCount` and
`isLimitHit` and kills a running native subprocess (`terminateNative`).
It does not touch `isCanceled`. -/
def resetState (st : WalkerState) : WalkerState :=
  ⟨[], 0, false, st.isCanceled, false, st.turn, false⟩

/-- The `cancel` method: sets `isCanceled` and kills a running native
subprocess. -/
def cancelWalker (st : WalkerState) : WalkerState :=
  { st with isCanceled := true, runningNative := false }

/-- The environment of one walk: the filesystem, the turn boundaries at
which a `cancel()` call arrives, the `fs.stat` answers for the
absolute-pattern probe and the per-root relative-pattern probe (true
when the probed path exists and is not a directory), and the paths the
native subprocess prints for a given root. -/
structure WalkEnv : Type where
  fs : FSModel
  cancelAt : Nat → Bool
  absPatternStat : Bool
  relPatternStat : Path → Bool
  nativeLines : Path → List Path

/-- Crossing one asynchronous callback boundary: the turn counter
advances and a `cancel()` call delivered at that boundary sets
`isCanceled` (nothing ever clears it during a walk). -/
def bump (env : WalkEnv) (st : WalkerState) : WalkerState :=
  { st with turn := st.turn + 1,
            isCanceled := st.isCanceled || env.cancelAt (st.turn + 1) }

/-- Where a result was emitted: the absolute file-pattern probe, the
per-root relative file-pattern probe, a root that turned out to be a
file (ENOTDIR), the portable node.js recursion, or the native-command
close handler.  The last three go through the result counter. -/
inductive EmitSite : Type where
  | absPattern : EmitSite
  | relPattern : EmitSite
  | rootFile : EmitSite
  | walked : EmitSite
  | native : EmitSite
  deriving DecidableEq

/-- Observable events of a walk: a result delivered to `onResult` (with
the values of `isCanceled` and `isLimitHit` at the moment of emission),
an insertion into `walkedPaths` (the guard of the inner recursion), and
the enumeration of a directory's children, recorded by the directory's
real identity. -/
inductive WalkEvent : Type where
  | emit : Path → EmitSite → Bool → Bool → WalkEvent
  | enter : Path → WalkEvent
  | enum : Nat → WalkEvent
  deriving DecidableEq

/-- Whether emissions at this site go through `resultCount`. -/
def isCountedSite : EmitSite → Bool
  | .rootFile => true
  | .walked => true
  | .native => true
  | _ => false

/-- Apply a glob oracle the way `glob.match(this.excludePattern, ...)`
behaves: an absent pattern matches nothing. -/
def exclMatchW (w : Walker) (p : Path) (sibs : List String) : Bool :=
  match w.excludePattern with
  | some g => g p sibs
  | none => false

/-- The include side: an absent include pattern lets everything in. -/
def includeOkW (w : Walker) (p : Path) (sibs : List String) : Bool :=
  match w.includePattern with
  | some g => g p sibs
  | none => true

/-- The `isFilePatternMatch` method: no pattern matches everything;
otherwise the fuzzy matcher is applied to the path when `matchFuzzy` or
`searchInPath` is set and to the basename otherwise. -/
def isFilePatternMatch (w : Walker) (name : String) (p : Path) : Bool :=
  match w.filePattern with
  | some pat =>
    w.fuzzyMatcher pat (if w.matchFuzzy || w.searchInPath then p else [name]) w.matchFuzzy
  | none => true

/-- Whether the raw configured pattern is exactly this file name
(`this.config.filePattern === file`), which disables sibling-based
exclude refinement. -/
def rawPatternIs (w : Walker) (name : String) : Bool :=
  match w.rawFilePattern with
  | some p => !p.absolute && decide (p.segs = [name])
  | none => false

/-- The counted emission step shared by the three counted sites
(lines: increment `resultCount`, set `isLimitHit` once the count
exceeds `maxResults`, and deliver the result only when the limit is not
hit). -/
def tally (w : Walker) (st : WalkerState) (p : Path) (site : EmitSite) :
    WalkerState × List WalkEvent :=
  let c := st.resultCount + 1
  let nowHit :=
    st.isLimitHit ||
      (match w.maxResults with
       | some m => decide (m < c)
       | none => false)
  let st' := { st with resultCount := c, isLimitHit := nowHit }
  if nowHit then (st', []) else (st', [.emit p site st'.isCanceled st'.isLimitHit])

/-- One level of `recurseWithNodeJS`: iterate the pending part of a
directory listing whose full name list is `allNames`; each entry checks
the cancellation/limit flags, the exclude pattern (with sibling names,
dropped when the raw pattern names the file exactly), then issues a
readdir.  A successful readdir resolves the real path (`realPathLink`:
the textual path for a plain directory, the canonical target path for a
symbolic link, skipping the entry on a resolution error), skips already
walked keys, records the key and recurses; an ENOTDIR failure runs the
file-candidate checks and the counted emission; any other failure is
ignored.  `fuel` bounds the recursion depth for the model; `fuelOut` is
set when it runs out (a later theorem shows the fuel chosen by `walk`
never does). -/
def walkLoop (env : WalkEnv) (w : Walker) :
    Nat → Path → Path → List String → FSEntries → WalkerState →
    WalkerState × List WalkEvent
  | 0, _, _, _, _, st => ({ st with fuelOut := true }, [])
  | Nat.succ f, absPath, relParent, allNames, pending, st =>
    match pending with
    | .nil => (st, [])
    | .cons name entry rest =>
      if st.isCanceled || st.isLimitHit then
        walkLoop env w f absPath relParent allNames rest st
      else
        let sibs := if rawPatternIs w name then [] else allNames
        let relFile := relParent ++ [name]
        if exclMatchW w relFile sibs then
          walkLoop env w f absPath relParent allNames rest st
        else
          let currentPath := absPath ++ [name]
          let st1 := bump env st
          let step :=
            match readdirE env.fs entry with
            | .ok children =>
              let stL := bump env st1
              match entry with
              | .link t =>
                let stR := bump env stL
                match env.fs.resolveLink t with
                | some pr =>
                  if pr.1 ∈ stR.walkedPaths then (stR, ([] : List WalkEvent))
                  else
                    let stE := { stR with walkedPaths := pr.1 :: stR.walkedPaths }
                    let d := walkLoop env w f currentPath relFile children.names children stE
                    (d.1, .enter pr.1 :: .enum t :: d.2)
                | none => (stR, [])
              | .dir i _ =>
                if currentPath ∈ stL.walkedPaths then (stL, [])
                else
                  let stE := { stL with walkedPaths := currentPath :: stL.walkedPaths }
                  let d := walkLoop env w f currentPath relFile children.names children stE
                  (d.1, .enter currentPath :: .enum i :: d.2)
              | _ => (stL, [])
            | .error code =>
              if code = "ENOTDIR" ∧ st1.isCanceled = false ∧ st1.isLimitHit = false then
                if isFilePatternMatch w name relFile && includeOkW w relFile [] then
                  tally w st1 currentPath .walked
                else (st1, [])
              else (st1, [])
          let d2 := walkLoop env w f absPath relParent allNames rest step.1
          (d2.1, step.2 ++ d2.2)

/-- Basename of a path (`paths.basename`). -/
def baseName (p : Path) : String := p.getLastD ""

/-- Append one discovered path under its parent key, preserving
first-appearance key order (JS object string keys enumerate in insertion
order). -/
def addAssoc (m : List (Path × List Path)) (k : Path) (v : Path) :
    List (Path × List Path) :=
  match m with
  | [] => [(k, [v])]
  | kv :: rest =>
    if kv.1 = k then (kv.1, kv.2 ++ [v]) :: rest else kv :: addAssoc rest k v

/-- The `mapFoldersToFilepaths` index built by `perPathHandler`: parent
directory to full child paths, skipping empty lines. -/
def groupByParent (lines : List Path) : List (Path × List Path) :=
  lines.foldl (fun m p => if p = [] then m else addAssoc m p.dropLast p) []

/-- The `mapFoldersToFilenames` index: parent directory to child
basenames, in the same order. -/
def groupNames (lines : List Path) : List (Path × List String) :=
  (groupByParent lines).map (fun kv => (kv.1, kv.2.map baseName))

/-- The do-while loop that tests a folder's relative path and then every
ancestor against the exclude pattern (`paths.dirname` walks up until the
root, spelled `.` in the source and `[]` here; the root itself, whose
relative path is empty, is tested once). -/
def ancestorExcl (f : Path → Bool) : Path → Bool
  | [] => f []
  | [x] => f [x]
  | x :: y :: rest =>
    f (x :: y :: rest) || ancestorExcl f (x :: y :: rest).dropLast
termination_by p => p.length
decreasing_by simp [List.length_dropLast]

/-- The result loop of the native close handler: for each discovered
file path (folders already filtered by `ancestorExcl`), stop emitting
once the limit is hit, rebuild the relative path and sibling names,
drop sibling refinement when the raw pattern names the file exactly,
then apply exclude, file-pattern and include checks before the counted
emission. -/
def nativeLoop (env : WalkEnv) (w : Walker) (rootPath : Path)
    (folderNames : List (Path × List String)) :
    List Path → WalkerState → WalkerState × List WalkEvent
  | [], st => (st, [])
  | p :: rest, st =>
    if st.isLimitHit then nativeLoop env w rootPath folderNames rest st
    else
      let rel := p.drop rootPath.length
      let filename := baseName p
      let sibs0 :=
        match folderNames.find? (fun kv => decide (kv.1 = p.dropLast)) with
        | some kv => kv.2
        | none => []
      let sibs := if rawPatternIs w filename then [] else sibs0
      if exclMatchW w rel sibs then nativeLoop env w rootPath folderNames rest st
      else if isFilePatternMatch w filename rel && includeOkW w rel sibs then
        let d := tally w st p .native
        let d2 := nativeLoop env w rootPath folderNames rest d.1
        (d2.1, d.2 ++ d2.2)
      else nativeLoop env w rootPath folderNames rest st

/-- The `close` handler of `recurseWithNativeCommand`: the subprocess
handle is cleared, and unless the walk was canceled the collected
stdout lines are indexed by parent folder, folders excluded (directly or
through an ancestor) are dropped, and the remaining file paths run
through the result loop.  The subprocess lines are those delivered by
un-canceled data turns, supplied by the environment oracle. -/
def nativeClose (env : WalkEnv) (w : Walker) (rootPath : Path)
    (st : WalkerState) : WalkerState × List WalkEvent :=
  let st1 := { bump env st with runningNative := false }
  if st1.isCanceled then (st1, [])
  else
    let lines := env.nativeLines rootPath
    let folders := groupByParent lines
    let kept :=
      folders.filter
        (fun kv => !ancestorExcl (fun rel => exclMatchW w rel []) (kv.1.drop rootPath.length))
    let candidates := (kept.map (fun kv => kv.2)).flatten
    nativeLoop env w rootPath (groupNames lines) candidates st1

/-- Fuel for the portable recursion, computed from the filesystem: the
nesting depth of `recurseWithNodeJS` is bounded because every guarded
entry either consumes a never-walked canonical directory path (symbolic
links) or descends into a strictly smaller subtree. -/
def walkFuel (env : WalkEnv) : Nat :=
  let s := rootsSize env.fs.roots
  (canonAll env.fs).dedup.length * (s + 1) + s + 1

/-- The `checkFilePatternAbsoluteMatch` phase of `walk`: when the
pattern is an absolute path that is not itself a root, a stat probe
(one turn) reports whether it names an existing non-directory file, and
a positive answer is delivered to `onResult` immediately — without
going through the result counter. -/
def absPatternPhase (env : WalkEnv) (w : Walker) (st : WalkerState) :
    WalkerState × List WalkEvent :=
  match w.filePattern with
  | some p =>
    if p.absolute then
      if env.fs.roots.any (fun r => decide (r.1 = p.segs)) then (st, [])
      else
        let st1 := bump env st
        if env.absPatternStat then
          (st1, [.emit p.segs .absPattern st1.isCanceled st1.isLimitHit])
        else (st1, [])
    else (st, [])
  | none => (st, [])

/-- The `checkFilePatternRelativeMatch` phase run per root directory:
for a relative pattern containing a separator, a stat probe (one turn)
checks `join(root, pattern)`, and a positive answer is delivered to
`onResult` immediately — again without going through the result
counter. -/
def relPatternPhase (env : WalkEnv) (w : Walker) (rootPath : Path)
    (st : WalkerState) : WalkerState × List WalkEvent :=
  match w.filePattern with
  | some p =>
    if !p.absolute && w.searchInPath then
      let st1 := bump env st
      if env.relPatternStat rootPath then
        (st1, [.emit (rootPath ++ p.segs) .relPattern st1.isCanceled st1.isLimitHit])
      else (st1, [])
    else (st, [])
  | none => (st, [])

/-- Identity of the directory a successful root readdir enumerates. -/
def rootEnumId : FSEntry → Nat
  | .dir i _ => i
  | .link t => t
  | _ => 0

/-- Processing of one root path inside the fan-out: the readdir callback
(one turn) first checks the cancellation/limit flags.  A directory runs
the relative-pattern probe and then recurses — portably with
`recurseWithNodeJS` or through the native command.  An ENOTDIR failure
treats the root itself as a file candidate: exclude is checked against
the absolute path without siblings, then the file pattern (against the
basename / absolute path) and the include pattern gate a counted
emission.  Every other readdir failure falls through; in all cases the
per-entry callback reports a null error, which is the third component. -/
def processRoot (env : WalkEnv) (w : Walker) (root : Path × FSEntry)
    (st : WalkerState) : WalkerState × List WalkEvent × Option String :=
  let st1 := bump env st
  if st1.isCanceled || st1.isLimitHit then (st1, [], none)
  else
    match readdirE env.fs root.2 with
    | .ok files =>
      let d0 := relPatternPhase env w root.1 st1
      if w.disableFastFileLookup then
        let d := walkLoop env w (walkFuel env) root.1 [] files.names files d0.1
        (d.1, d0.2 ++ .enum (rootEnumId root.2) :: d.2, none)
      else
        let stS := { d0.1 with runningNative := true }
        let d := nativeClose env w root.1 stS
        (d.1, d0.2 ++ d.2, none)
    | .error code =>
      if code = "ENOTDIR" ∧ st1.isCanceled = false ∧ st1.isLimitHit = false then
        if exclMatchW w root.1 [] then (st1, [], none)
        else if isFilePatternMatch w (baseName root.1) root.1 && includeOkW w root.1 [] then
          let d := tally w st1 root.1 .rootFile
          (d.1, d.2, none)
        else (st1, [], none)
      else (st1, [], none)

/-- The fan-out over the root paths (`flow.parallel`).  Modelled from the
spec: the fan-out units all run on one event-processing thread with
run-to-completion turns, so the model runs them in root order,
collecting each per-entry callback's error slot in order. -/
def rootsPhase (env : WalkEnv) (w : Walker) :
    List (Path × FSEntry) → WalkerState →
    WalkerState × List WalkEvent × List (Option String)
  | [], st => (st, [], [])
  | r :: rest, st =>
    let d := processRoot env w r st
    let d2 := rootsPhase env w rest d.1
    (d2.1, d.2.1 ++ d2.2.1, d.2.2 :: d2.2.2)

/-- The outcome of one `walk` call: final state, the event trace, and
the two arguments of the completion callback (`done(error,
isLimitHit)`). -/
structure WalkResult : Type where
  state : WalkerState
  events : List WalkEvent
  doneErr : Option String
  doneLimitHit : Bool
  deriving DecidableEq

/-- The `walk` method: reset the per-search state, run the
absolute-pattern probe, fan out over the root paths, and call `done`
with the first slot of the collected error array (`err ? err[0] : null`)
and the final `isLimitHit`. -/
def walk (env : WalkEnv) (w : Walker) (st0 : WalkerState) : WalkResult :=
  let st := resetState st0
  let dA := absPatternPhase env w st
  let dR := rootsPhase env w env.fs.roots dA.1
  { state := dR.1
    events := dA.2 ++ dR.2.1
    doneErr :=
      match dR.2.2 with
      | [] => none
      | e :: _ => e
    doneLimitHit := dR.1.isLimitHit }

/-- Key of an `enter` event. -/
def enterKeyOf : WalkEvent → Option Path
  | .enter k => some k
  | _ => none

/-- Directory identity of an `enum` event. -/
def enumIdOf : WalkEvent → Option Nat
  | .enum i => some i
  | _ => none

/-- The `walkedPaths` keys recorded by a trace, in order. -/
def enterKeys (evs : List WalkEvent) : List Path := evs.filterMap enterKeyOf

/-- The directory identities enumerated by a trace, in order. -/
def enumIds (evs : List WalkEvent) : List Nat := evs.filterMap enumIdOf

/-- Whether an event is a counted result emission. -/
def isCountedEmit : WalkEvent → Bool
  | .emit _ s _ _ => isCountedSite s
  | _ => false

/-- Whether an event is any result emission (`onResult` call). -/
def isEmit : WalkEvent → Bool
  | .emit _ _ _ _ => true
  | _ => false

/-- Number of counted result emissions in a trace. -/
def countedLen (evs : List WalkEvent) : Nat := (evs.filter isCountedEmit).length

/-- Number of `onResult` deliveries in a trace. -/
def emitLen (evs : List WalkEvent) : Nat := (evs.filter isEmit).length

/-- A counted emission respects the flags: its recorded `isCanceled` and
`isLimitHit` snapshots are both false. -/
def countedEmitOk : WalkEvent → Bool
  | .emit _ s c h => !isCountedSite s || (!c && !h)
  | _ => true

/-- Number of canonical directory paths not yet recorded in
`walkedPaths`; the decreasing part of the termination measure of the
portable recursion. -/
def unCount (fs : FSModel) (walked : List Path) : Nat :=
  ((canonAll fs).dedup.filter (fun q => decide (q ∉ walked))).length

/-- The invariants one processing step of the walk preserves, relating a
state `st`, its successor `st'` and the events of the step:
`walkedPaths` grows by exactly the recorded `enter` keys; every counted
emission is flag-clean; `resultCount` is monotone; when `maxResults` is
set, `isLimitHit` tracks `maxResults < resultCount` and the counted
emissions number `min maxResults resultCount` minus its old value;
`walkedPaths` stays duplicate-free. -/
def StepOk (w : Walker) (st st' : WalkerState) (evs : List WalkEvent) : Prop :=
  st'.walkedPaths = (enterKeys evs).reverse ++ st.walkedPaths
  ∧ evs.all countedEmitOk = true
  ∧ st.resultCount ≤ st'.resultCount
  ∧ (∀ m, w.maxResults = some m → st.isLimitHit = decide (m < st.resultCount) →
      st'.isLimitHit = decide (m < st'.resultCount)
      ∧ countedLen evs + min m st.resultCount = min m st'.resultCount)
  ∧ (st.walkedPaths.Nodup → st'.walkedPaths.Nodup)

end FileSearch

namespace JsMode

/-- A line/character position, as in the editor protocol.  The model
keeps coordinates non-negative. -/
structure Position : Type where
  line : Nat
  character : Nat
  deriving DecidableEq

/-- An editor range (`Range.create(start, end)`); the second field is
named `stop` because `end` is reserved here. -/
structure Range : Type where
  start : Position
  stop : Position
  deriving DecidableEq

/-- A text-document snapshot: uri, language, version and content.
Modelled from the spec: the editor text-buffer abstraction
(`TextDocument` of the language-server text-document library, which the
language mode consumes but which lies outside the modelled sources)
keeps the full text and translates between offsets and line/character
positions through a sorted table of line-start offsets. -/
structure TextDocument : Type where
  uri : String
  languageId : String
  version : Nat
  content : List Char
  deriving DecidableEq

/-- The `TextDocument.create` constructor. -/
def TextDocument.create (uri languageId : String) (version : Nat)
    (content : List Char) : TextDocument :=
  ⟨uri, languageId, version, content⟩

/-- Offsets (into the text starting at offset `i`) at which a new line
starts: after each line feed, carriage return, or carriage-return /
line-feed pair. -/
def lineStartsAux : List Char → Nat → List Nat
  | [], _ => []
  | '\r' :: '\n' :: rest, i => (i + 2) :: lineStartsAux rest (i + 2)
  | '\r' :: rest, i => (i + 1) :: lineStartsAux rest (i + 1)
  | '\n' :: rest, i => (i + 1) :: lineStartsAux rest (i + 1)
  | _ :: rest, i => lineStartsAux rest (i + 1)

/-- The line-start offset table of a document; line 0 starts at 0. -/
def lineOffsets (d : TextDocument) : List Nat :=
  0 :: lineStartsAux d.content 0

/-- `positionAt`: clamp the offset into the document, then find the last
line whose start offset is not beyond it (the source's binary search
over the sorted offset table computes exactly the length of the prefix
of table entries that are `≤` the clamped offset, minus one) and answer
that line with the remaining characters. -/
def positionAt (d : TextDocument) (offset : Nat) : Position :=
  let o := min offset d.content.length
  let ls := lineOffsets d
  let k := (ls.takeWhile (fun s => decide (s ≤ o))).length
  ⟨k - 1, o - ls.getD (k - 1) 0⟩

/-- `offsetAt`: a line beyond the table maps to the end of the text;
otherwise the position's character count is added to the line's start
offset and clamped between that offset and the start of the next line
(or the end of the text for the last line). -/
def offsetAt (d : TextDocument) (p : Position) : Nat :=
  let ls := lineOffsets d
  if ls.length ≤ p.line then d.content.length
  else
    let lo := ls.getD p.line 0
    let next := if p.line + 1 < ls.length then ls.getD (p.line + 1) 0 else d.content.length
    max (min (lo + p.character) next) lo

/-- An engine text span; the engine can omit either field. -/
structure EngineSpan : Type where
  start : Option Nat
  length : Option Nat
  deriving DecidableEq

/-- The `convertRange` helper: a span without a start becomes the empty
range at position of offset 0; otherwise the span's endpoints (a missing
length counts as 0) are converted with `positionAt`. -/
def convertRange (d : TextDocument) (span : EngineSpan) : Range :=
  match span.start with
  | none =>
    let pos := positionAt d 0
    ⟨pos, pos⟩
  | some s => ⟨positionAt d s, positionAt d (s + span.length.getD 0)⟩

/-- The `deschemeURI` helper on the modelled (non-Windows) platform: a
`file://` uri loses its scheme and is path-normalized (`normalize` is
node's `path.normalize`, an external utility supplied as an oracle; with
separator `/` the source's separator-to-slash substitution is the
identity, and the Windows drive-letter fixup does not apply); any other
uri is returned unchanged. -/
def deschemeURI (normalize : String → String) (uri : String) : String :=
  if uri.startsWith "file://" then normalize (uri.drop 7) else uri

/-- A workspace view (folder uris). -/
structure Workspace : Type where
  folders : List String
  deriving DecidableEq

/-- The closure state built by `getLanguageServiceHost`: the script kind
it was created for, the current document and workspace, the engine
instance created by the one-shot library load (identified by a number),
and how many times that load ran. -/
structure JsHost : Type where
  scriptKind : Nat
  currentTextDocument : TextDocument
  currentWorkspace : Option Workspace
  engine : Nat
  loadCount : Nat
  normalize : String → String

/-- The `getLanguageServiceHost` function: starts with the placeholder
document `TextDocument.create('init', 'javascript', 1, '')`, no
workspace, and the single engine instance produced by the one
`import(...)` of the engine library. -/
def getLanguageServiceHost (scriptKind engineId : Nat)
    (normalize : String → String) : JsHost :=
  { scriptKind := scriptKind
    currentTextDocument := TextDocument.create "init" "javascript" 1 []
    currentWorkspace := none
    engine := engineId
    loadCount := 1
    normalize := normalize }

/-- The `getLanguageService` method: overwrite the current document and
workspace, then hand back the already-created engine instance. -/
def JsHost.getLanguageService (h : JsHost) (doc : TextDocument)
    (ws : Workspace) : JsHost × Nat :=
  ({ h with currentTextDocument := doc, currentWorkspace := some ws }, h.engine)

/-- The host's `getScriptFileNames` view: the de-schemed uri of the
current document plus the static `jquery` entry. -/
def JsHost.getScriptFileNames (h : JsHost) : List String :=
  [deschemeURI h.normalize h.currentTextDocument.uri, "jquery"]

/-- The host's `getScriptVersion` view: the current document answers its
own version, every other file is the static version `1`. -/
def JsHost.getScriptVersion (h : JsHost) (fileName : String) : String :=
  if fileName = deschemeURI h.normalize h.currentTextDocument.uri then
    toString h.currentTextDocument.version
  else "1"

/-- Run a sequence of `getLanguageService` calls, collecting the engine
instance each call resolves to. -/
def runCalls (h : JsHost) : List (TextDocument × Workspace) → JsHost × List Nat
  | [] => (h, [])
  | c :: rest =>
    let d := h.getLanguageService c.1 c.2
    let d2 := runCalls d.1 rest
    (d2.1, d.2 :: d2.2)

/-- The opaque `data` payload a completion item carries for later
resolution. -/
structure CompletionItemData : Type where
  languageId : String
  uri : String
  offset : Nat
  deriving DecidableEq

/-- A completion item, restricted to the fields `doResolve` touches. -/
structure CompletionItem : Type where
  label : String
  detail : Option String
  documentation : Option String
  data : Option CompletionItemData
  deriving DecidableEq

/-- `ts.displayPartsToString`: concatenation of the part texts. -/
def displayPartsToString (parts : List String) : String := String.join parts

/-- The `doResolve` operation.  The engine oracle
`details filePath offset label` models
`getCompletionEntryDetails` and answers display parts and documentation
parts when it has details.  The source reads `item.data.offset`
unconditionally, so a missing `data` payload raises a TypeError — the
error outcome; with details present the item gains detail and
documentation texts and loses its `data` payload. -/
def doResolve (details : String → Nat → String → Option (List String × List String))
    (filePath : String) (item : CompletionItem) : Except String CompletionItem :=
  match item.data with
  | none => .error "TypeError: cannot read offset of undefined item.data"
  | some pl =>
    match details filePath pl.offset item.label with
    | some dd =>
      .ok { item with
              detail := some (displayPartsToString dd.1)
              documentation := some (displayPartsToString dd.2)
              data := none }
    | none => .ok item

/-- An engine text span with both endpoints present (`ts.TextSpan`). -/
structure TextSpan : Type where
  start : Nat
  length : Nat
  deriving DecidableEq

mutual
/-- A navigation-bar item: text, kind, spans and children.  Navigation
items produced by the engine always carry at least one span; the model
reads the first span through a default to stay total. -/
inductive NavItem : Type where
  | mk : String → String → List TextSpan → NavForest → NavItem
/-- A list of navigation-bar items. -/
inductive NavForest : Type where
  | nil : NavForest
  | cons : NavItem → NavForest → NavForest
end

/-- The symbol kinds `convertSymbolKind` can produce. -/
inductive SymbolKind : Type where
  | variable_ : SymbolKind
  | function_ : SymbolKind
  | enum : SymbolKind
  | module : SymbolKind
  | class_ : SymbolKind
  | interface : SymbolKind
  | method : SymbolKind
  | property : SymbolKind
  deriving DecidableEq

/-- The `convertSymbolKind` mapping (defaulting to a variable). -/
def convertSymbolKind (kind : String) : SymbolKind :=
  if kind = "var" ∨ kind = "local var" ∨ kind = "const" then .variable_
  else if kind = "function" ∨ kind = "local function" then .function_
  else if kind = "enum" then .enum
  else if kind = "module" then .module
  else if kind = "class" then .class_
  else if kind = "interface" then .interface
  else if kind = "method" then .method
  else if kind = "property" ∨ kind = "getter" ∨ kind = "setter" then .property
  else .variable_

/-- A symbol entry as `findDocumentSymbols` shapes it. -/
structure SymbolInformation : Type where
  name : String
  kind : SymbolKind
  uri : String
  range : Range
  containerName : Option String
  deriving DecidableEq

/-- Accumulator of the symbol collection: the `existing` signature map
(as the list of inserted signature strings), the result list, and — as
model observation — the raw (text, kind, start) triples behind the
emitted entries, in emission order. -/
structure CollectAcc : Type where
  existing : List String
  result : List SymbolInformation
  raws : List (String × String × Nat)
  deriving DecidableEq

mutual
/-- The `collectSymbols` closure of `findDocumentSymbols`: signature is
the concatenation `item.text + item.kind + item.spans[0].start`; an item
that is not a `script` pseudo-symbol and whose signature is new is
emitted (with `containerName` from the current container label) and
becomes the container label for its children; otherwise its children
keep the enclosing label. -/
def collectItem (docUri : String) (jsDoc : TextDocument) (item : NavItem)
    (containerLabel : Option String) (acc : CollectAcc) : CollectAcc :=
  match item with
  | .mk text kind spans children =>
    let s0 := spans.headD ⟨0, 0⟩
    let sig := text ++ kind ++ toString s0.start
    if kind ≠ "script" ∧ sig ∉ acc.existing then
      let sym : SymbolInformation :=
        { name := text
          kind := convertSymbolKind kind
          uri := docUri
          range := convertRange jsDoc ⟨some s0.start, some s0.length⟩
          containerName := containerLabel }
      let acc' : CollectAcc :=
        { existing := sig :: acc.existing
          result := acc.result ++ [sym]
          raws := acc.raws ++ [(text, kind, s0.start)] }
      collectForest docUri jsDoc children (some text) acc'
    else collectForest docUri jsDoc children containerLabel acc
/-- Collection over a list of sibling items. -/
def collectForest (docUri : String) (jsDoc : TextDocument) (forest : NavForest)
    (containerLabel : Option String) (acc : CollectAcc) : CollectAcc :=
  match forest with
  | .nil => acc
  | .cons item rest =>
    collectForest docUri jsDoc rest containerLabel
      (collectItem docUri jsDoc item containerLabel acc)
end

/-- The `findDocumentSymbols` operation over the navigation-bar items
the engine reports (`none` models a null answer). -/
def findDocumentSymbols (document jsDoc : TextDocument)
    (items : Option NavForest) : List SymbolInformation :=
  match items with
  | none => []
  | some forest =>
    (collectForest document.uri jsDoc forest none ⟨[], [], []⟩).result

/-- An engine definition/reference entry: file name and text span. -/
structure EngineEntry : Type where
  fileName : String
  textSpan : EngineSpan
  deriving DecidableEq

/-- An editor location. -/
structure Location : Type where
  uri : String
  range : Range
  deriving DecidableEq

/-- The `findDefinition` operation over the engine's answer: keep only
entries whose file name equals the embedded document's uri, and shape
each one as a location in the host document. -/
def findDefinition (engineDefs : Option (List EngineEntry))
    (document jsDoc : TextDocument) : Option (List Location) :=
  match engineDefs with
  | some ds =>
    some ((ds.filter (fun e => e.fileName == jsDoc.uri)).map
      (fun e => ⟨document.uri, convertRange jsDoc e.textSpan⟩))
  | none => none

/-- The `findReferences` operation over the engine's answer: keep only
entries whose file name equals the de-schemed file path of the embedded
document, and shape each one as a location in the host document. -/
def findReferences (normalize : String → String)
    (engineRefs : Option (List EngineEntry))
    (document jsDoc : TextDocument) : List Location :=
  let filePath := deschemeURI normalize jsDoc.uri
  match engineRefs with
  | some rs =>
    (rs.filter (fun e => e.fileName == filePath)).map
      (fun e => ⟨document.uri, convertRange jsDoc e.textSpan⟩)
  | none => []

end JsMode

namespace FileSearch

/-- A walker with no pattern, no globs, no cap, portable recursion. -/
def plainWalker : Walker :=
  mkWalker ⟨none, none, none, 0, false, true, fun _ _ _ => false⟩

/-- A filesystem whose single root contains a file `f` and a symbolic
link `self` back to the root — a symlink cycle. -/
def cycleFS : FSModel :=
  ⟨[(["r"], .dir 0 (.cons "f" .file (.cons "self" (.link 0) .nil)))]⟩

/-- The cycle filesystem with no cancellation and no probe hits. -/
def cycleEnv : WalkEnv :=
  ⟨cycleFS, fun _ => false, false, fun _ => false, fun _ => []⟩

/-- An environment with no roots whose absolute-pattern probe answers
positively, and where a `cancel()` call arrives at the first turn
boundary — after `walk` starts but before the probe's stat callback. -/
def cancelEnv : WalkEnv :=
  ⟨⟨[]⟩, fun t => decide (1 ≤ t), true, fun _ => false, fun _ => []⟩

/-- A walker whose pattern is the absolute path `/q/f`. -/
def absPatternWalker : Walker :=
  mkWalker ⟨some ⟨["q", "f"], true⟩, none, none, 0, false, true, fun _ _ _ => false⟩

/-- A filesystem whose single root contains `d/g`. -/
def relFS : FSModel :=
  ⟨[(["r"], .dir 0 (.cons "d" (.dir 1 (.cons "g" .file .nil)) .nil))]⟩

/-- The `d/g` filesystem where the per-root relative-pattern probe
answers positively for the root (the file `r/d/g` exists). -/
def relEnv : WalkEnv :=
  ⟨relFS, fun _ => false, false, fun p => decide (p = ["r"]), fun _ => []⟩

/-- A walker with `filePattern = "d/g"` (relative, so `searchInPath`),
`maxResults = 1`, and a fuzzy matcher that accepts exactly the pattern
path. -/
def cappedRelWalker : Walker :=
  mkWalker ⟨some ⟨["d", "g"], false⟩, none, none, 1, false, true,
    fun pat cand _ => decide (cand = pat.segs)⟩

/-- An environment whose single root is a directory read failing with a
code other than ENOTDIR. -/
def badRootEnv : WalkEnv :=
  ⟨⟨[(["r"], .bad "EACCES")]⟩, fun _ => false, false, fun _ => false, fun _ => []⟩

/-- An environment whose single root is itself a file. -/
def fileRootEnv : WalkEnv :=
  ⟨⟨[(["r"], .file)]⟩, fun _ => false, false, fun _ => false, fun _ => []⟩

end FileSearch

namespace JsMode

/-- The raw (text, kind, start) triple behind an emitted symbol. -/
abbrev RawSig := String × String × Nat

/-- The signature string the source computes for a navigation item:
the concatenation `item.text + item.kind + item.spans[0].start`. -/
def sigOfT (tr : RawSig) : String := tr.1 ++ tr.2.1 ++ toString tr.2.2

/-- Whether a raw triple is not a `script` pseudo-symbol. -/
def notScript (tr : RawSig) : Bool := !(tr.2.1 == "script")

/-- Invariant of the symbol-collection accumulator: every emitted
triple's signature is recorded in `existing`, and the emitted triples
are pairwise distinct. -/
def CollectInv (acc : CollectAcc) : Prop :=
  (∀ tr ∈ acc.raws, sigOfT tr ∈ acc.existing) ∧ acc.raws.Nodup

/-- What one collection step guarantees relative to its input
accumulator: the invariant is preserved, `existing` only grows, and no
`script` triple is ever added. -/
def CollectStep (acc acc' : CollectAcc) : Prop :=
  (CollectInv acc → CollectInv acc')
  ∧ (∀ x ∈ acc.existing, x ∈ acc'.existing)
  ∧ (acc.raws.all notScript = true → acc'.raws.all notScript = true)

/-- A 60-character single-line document standing for the host document
of the symbol scenario. -/
def scenDoc : TextDocument :=
  TextDocument.create "test://host.html" "html" 1 (List.replicate 60 'x')

/-- The embedded script document of the symbol scenario. -/
def scenJsDoc : TextDocument :=
  TextDocument.create "test://host.html" "javascript" 1 (List.replicate 60 'x')

/-- A navigation forest with a `script` pseudo-item containing a class
`C` that contains two functions named `foo` at offsets 10 and 50. -/
def scenForest : NavForest :=
  .cons
    (.mk "<script>" "script" [⟨0, 60⟩]
      (.cons
        (.mk "C" "class" [⟨0, 55⟩]
          (.cons (.mk "foo" "function" [⟨10, 3⟩] .nil)
            (.cons (.mk "foo" "function" [⟨50, 3⟩] .nil) .nil)))
        .nil))
    .nil

/-- A navigation forest carrying the same symbol (name, kind and start
offset all equal) twice. -/
def dupForest : NavForest :=
  .cons (.mk "foo" "function" [⟨10, 3⟩] .nil)
    (.cons (.mk "foo" "function" [⟨10, 3⟩] .nil) .nil)

end JsMode

namespace FileSearch

theorem length_filter_mono {α : Type} (l : List α) (p q : α → Bool)
    (h : ∀ a, q a = true → p a = true) :
    (l.filter q).length ≤ (l.filter p).length := by
  induction l with
  | nil => simp
  | cons a t ih =>
    rw [List.filter_cons, List.filter_cons]
    cases hqa : q a with
    | true => rw [h a hqa]; simpa using ih
    | false =>
      cases hpa : p a
      · exact ih
      · simpa using Nat.le_succ_of_le ih

theorem length_filter_strict {α : Type} (l : List α) (p q : α → Bool)
    (h : ∀ a, q a = true → p a = true) (a : α) (ha : a ∈ l) (hnd : l.Nodup)
    (hq : q a = false) (hp : p a = true) :
    (l.filter q).length < (l.filter p).length := by
  induction l with
  | nil => simp at ha
  | cons b t ih =>
    rw [List.filter_cons, List.filter_cons]
    rcases List.mem_cons.mp ha with rfl | hat
    · rw [hq, hp]
      rw [if_neg (by simp), if_pos rfl]
      have := length_filter_mono t p q h
      simp only [List.length_cons]
      omega
    · have hnd' := (List.nodup_cons.mp hnd).2
      have hlt := ih hat hnd'
      cases hqb : q b
      · cases hpb : p b
        · rw [if_neg (by simp), if_neg (by simp)]
          exact hlt
        · rw [if_neg (by simp), if_pos rfl]
          simp only [List.length_cons]
          omega
      · rw [h b hqb, if_pos rfl, if_pos rfl]
        simp only [List.length_cons]
        omega

theorem unCount_mono (fs : FSModel) (w1 w2 : List Path)
    (h : ∀ x, x ∈ w1 → x ∈ w2) : unCount fs w2 ≤ unCount fs w1 := by
  apply length_filter_mono
  intro a ha
  simp only [decide_eq_true_eq] at ha ⊢
  intro hmem
  exact ha (h a hmem)

theorem unCount_insert_lt (fs : FSModel) (w : List Path) (k : Path)
    (hk : k ∈ canonAll fs) (hnw : k ∉ w) :
    unCount fs (k :: w) < unCount fs w := by
  refine length_filter_strict ((canonAll fs).dedup) _ _ ?_ k ?_ ?_ ?_ ?_
  · intro a ha
    simp only [decide_eq_true_eq, List.mem_cons] at ha ⊢
    intro hmem
    exact ha (Or.inr hmem)
  · exact List.mem_dedup.mpr hk
  · exact List.nodup_dedup _
  · simp
  · simp [hnw]

theorem sizeE_pos (e : FSEntry) : 1 ≤ sizeE e := by
  cases e <;> simp [sizeE] <;> omega

mutual
theorem findE_spec (t : Nat) (pre : Path) (e : FSEntry) :
    ∀ q ch, findE t pre e = some (q, ch) → q ∈ canonE pre e ∧ sizeL ch < sizeE e := by
  cases e with
  | file => intro q ch h; simp [findE] at h
  | bad c => intro q ch h; simp [findE] at h
  | link u => intro q ch h; simp [findE] at h
  | dir i ch0 =>
    intro q ch h
    simp only [findE] at h
    by_cases hit : i = t
    · rw [if_pos hit] at h
      simp only [Option.some.injEq, Prod.mk.injEq] at h
      obtain ⟨rfl, rfl⟩ := h
      exact ⟨by simp [canonE], by simp [sizeE]⟩
    · rw [if_neg hit] at h
      obtain ⟨hq, hs⟩ := findL_spec t pre ch0 q ch h
      refine ⟨?_, ?_⟩
      · simp only [canonE, List.mem_cons]
        exact Or.inr hq
      · simp only [sizeE]; omega
theorem findL_spec (t : Nat) (pre : Path) (l : FSEntries) :
    ∀ q ch, findL t pre l = some (q, ch) → q ∈ canonL pre l ∧ sizeL ch < sizeL l := by
  cases l with
  | nil => intro q ch h; simp [findL] at h
  | cons n e rest =>
    intro q ch h
    simp only [findL] at h
    cases hE : findE t (pre ++ [n]) e with
    | some r =>
      rw [hE] at h
      injection h with h2
      subst h2
      obtain ⟨hq, hs⟩ := findE_spec t (pre ++ [n]) e q ch hE
      refine ⟨?_, ?_⟩
      · simp only [canonL, List.mem_append]
        exact Or.inl hq
      · simp only [sizeL]; omega
    | none =>
      rw [hE] at h
      obtain ⟨hq, hs⟩ := findL_spec t pre rest q ch h
      refine ⟨?_, ?_⟩
      · simp only [canonL, List.mem_append]
        exact Or.inr hq
      · simp only [sizeL]
        have := sizeE_pos e
        omega
end

theorem resolveRoots_spec (t : Nat) (rs : List (Path × FSEntry)) :
    ∀ q ch, resolveRoots t rs = some (q, ch) →
      ∃ r, r ∈ rs ∧ q ∈ canonE r.1 r.2 ∧ sizeL ch < sizeE r.2 := by
  induction rs with
  | nil => intro q ch h; simp [resolveRoots] at h
  | cons r rest ih =>
    intro q ch h
    simp only [resolveRoots] at h
    cases hE : findE t r.1 r.2 with
    | some pr =>
      rw [hE] at h
      injection h with h2
      subst h2
      obtain ⟨hq, hs⟩ := findE_spec t r.1 r.2 q ch hE
      exact ⟨r, List.mem_cons_self _ _, hq, hs⟩
    | none =>
      rw [hE] at h
      obtain ⟨r', hr', hq, hs⟩ := ih q ch h
      exact ⟨r', List.mem_cons_of_mem _ hr', hq, hs⟩

theorem sizeE_le_rootsSize (r : Path × FSEntry) (rs : List (Path × FSEntry))
    (h : r ∈ rs) : sizeE r.2 ≤ rootsSize rs := by
  induction rs with
  | nil => simp at h
  | cons a t ih =>
    rcases List.mem_cons.mp h with rfl | hm
    · simp only [rootsSize]; omega
    · have := ih hm
      simp only [rootsSize]
      omega

theorem resolveLink_spec (fs : FSModel) (t : Nat) (q : Path) (ch : FSEntries)
    (h : fs.resolveLink t = some (q, ch)) :
    q ∈ canonAll fs ∧ sizeL ch < rootsSize fs.roots := by
  obtain ⟨r, hr, hq, hs⟩ := resolveRoots_spec t fs.roots q ch h
  constructor
  · simp only [canonAll, List.mem_flatten]
    exact ⟨canonE r.1 r.2, List.mem_map.mpr ⟨r, hr, rfl⟩, hq⟩
  · have := sizeE_le_rootsSize r fs.roots hr
    omega

theorem stepOk_silent (w : Walker) (st st' : WalkerState)
    (hW : st'.walkedPaths = st.walkedPaths)
    (hC : st'.resultCount = st.resultCount)
    (hH : st'.isLimitHit = st.isLimitHit) : StepOk w st st' [] := by
  refine ⟨by simp [enterKeys, hW], by simp, by omega, ?_, ?_⟩
  · intro m hm hInv
    refine ⟨by rw [hH, hC, hInv], ?_⟩
    simp [countedLen, hC]
  · intro h; rw [hW]; exact h

theorem stepOk_refl (w : Walker) (st : WalkerState) : StepOk w st st [] :=
  stepOk_silent w st st rfl rfl rfl

theorem stepOk_comp (w : Walker) (st st1 st2 : WalkerState)
    (evs1 evs2 : List WalkEvent)
    (h1 : StepOk w st st1 evs1) (h2 : StepOk w st1 st2 evs2) :
    StepOk w st st2 (evs1 ++ evs2) := by
  obtain ⟨a1, b1, c1, d1, f1⟩ := h1
  obtain ⟨a2, b2, c2, d2, f2⟩ := h2
  refine ⟨?_, ?_, le_trans c1 c2, ?_, fun h => f2 (f1 h)⟩
  · rw [a2, a1]
    simp [enterKeys, List.filterMap_append]
  · simp [List.all_append, b1, b2]
  · intro m hm hInv
    obtain ⟨h1h, h1c⟩ := d1 m hm hInv
    obtain ⟨h2h, h2c⟩ := d2 m hm h1h
    refine ⟨h2h, ?_⟩
    simp only [countedLen, List.filter_append, List.length_append] at *
    omega

theorem stepOk_enter (w : Walker) (st : WalkerState) (k : Path) (i : Nat)
    (hk : k ∉ st.walkedPaths) :
    StepOk w st { st with walkedPaths := k :: st.walkedPaths }
      [.enter k, .enum i] := by
  refine ⟨?_, by simp [countedEmitOk], le_refl _, ?_, ?_⟩
  · simp [enterKeys, enterKeyOf]
  · intro m hm hInv
    exact ⟨hInv, by simp [countedLen, isCountedEmit]⟩
  · intro h
    exact List.nodup_cons.mpr ⟨hk, h⟩

theorem stepOk_tally (w : Walker) (st : WalkerState) (p : Path) (site : EmitSite)
    (hSite : isCountedSite site = true)
    (hHit : st.isLimitHit = false) (hCan : st.isCanceled = false) :
    StepOk w st (tally w st p site).1 (tally w st p site).2 := by
  unfold tally
  cases hM : w.maxResults with
  | none =>
    simp only [hM, hHit, Bool.false_or]
    refine ⟨by simp [enterKeys, enterKeyOf], ?_, by simp, ?_, by simp⟩
    · simp [countedEmitOk, hCan]
    · intro m hm _
      simp [hM] at hm
  | some m =>
    simp only [hM, hHit, Bool.false_or]
    by_cases hlt : m < st.resultCount + 1
    · rw [decide_eq_true hlt, if_pos rfl]
      refine ⟨by simp [enterKeys], by simp, by simp, ?_, by simp⟩
      intro m' hm' hInv
      rw [hM] at hm'
      injection hm' with hmq
      subst hmq
      have hle : st.resultCount ≤ m := by
        by_contra hgt
        rw [decide_eq_true (by omega : m < st.resultCount), hHit] at hInv
        exact Bool.false_ne_true hInv
      refine ⟨by rw [decide_eq_true hlt], ?_⟩
      simp only [countedLen, List.filter_nil, List.length_nil]
      omega
    · rw [decide_eq_false hlt, if_neg (by simp)]
      refine ⟨by simp [enterKeys, enterKeyOf], ?_, by simp, ?_, by simp⟩
      · simp [countedEmitOk, hCan, hSite]
      · intro m' hm' hInv
        rw [hM] at hm'
        injection hm' with hmq
        subst hmq
        refine ⟨by rw [decide_eq_false hlt], ?_⟩
        have hc : countedLen [WalkEvent.emit p site st.isCanceled false] = 1 := by
          simp [countedLen, isCountedEmit, hSite]
        simp only [hc]
        omega

theorem walkLoop_main (env : WalkEnv) (w : Walker) :
    ∀ (f : Nat) (a r : Path) (ns : List String) (pend : FSEntries)
      (st : WalkerState),
    StepOk w st (walkLoop env w f a r ns pend st).1
      (walkLoop env w f a r ns pend st).2 := by
  intro f
  induction f with
  | zero =>
    intro a r ns pend st
    simp only [walkLoop]
    exact stepOk_silent w st _ rfl rfl rfl
  | succ f ih =>
    intro a r ns pend st
    cases pend with
    | nil =>
      simp only [walkLoop]
      exact stepOk_refl w st
    | cons name entry rest =>
      simp only [walkLoop]
      split
      · exact ih a r ns rest st
      · next h1 =>
        simp only [Bool.or_eq_true, not_or, Bool.not_eq_true] at h1
        obtain ⟨hCan, hHit⟩ := h1
        generalize (if rawPatternIs w name then ([] : List String) else ns) = sibs
        split
        · exact ih a r ns rest st
        · next h2 =>
          cases hR : readdirE env.fs entry with
          | error code =>
            simp only []
            by_cases hg : code = "ENOTDIR" ∧ (bump env st).isCanceled = false ∧
                (bump env st).isLimitHit = false
            · rw [if_pos hg]
              obtain ⟨hcode, hc1, hh1⟩ := hg
              by_cases hm2 : (isFilePatternMatch w name (r ++ [name]) &&
                  includeOkW w (r ++ [name]) []) = true
              · rw [if_pos hm2]
                exact stepOk_comp w st _ _ _ _
                  (stepOk_comp w st (bump env st) _ [] _
                    (stepOk_silent w st (bump env st) rfl rfl rfl)
                    (stepOk_tally w (bump env st) (a ++ [name]) .walked rfl hh1 hc1))
                  (ih a r ns rest _)
              · rw [if_neg hm2]
                exact stepOk_comp w st _ _ [] _
                  (stepOk_silent w st (bump env st) rfl rfl rfl)
                  (ih a r ns rest _)
            · rw [if_neg hg]
              exact stepOk_comp w st _ _ [] _
                (stepOk_silent w st (bump env st) rfl rfl rfl)
                (ih a r ns rest _)
          | ok children =>
            cases entry with
            | file => simp [readdirE] at hR
            | bad c => simp [readdirE] at hR
            | dir i ch =>
              have hch : children = ch := by
                simp only [readdirE] at hR
                injection hR with h3
                exact h3.symm
              subst hch
              simp only []
              by_cases hmem : (a ++ [name]) ∈ (bump env (bump env st)).walkedPaths
              · rw [if_pos hmem]
                exact stepOk_comp w st _ _ [] _
                  (stepOk_silent w st (bump env (bump env st)) rfl rfl rfl)
                  (ih a r ns rest _)
              · rw [if_neg hmem]
                exact stepOk_comp w st _ _ _ _
                  (stepOk_comp w st (bump env (bump env st)) _ [] _
                    (stepOk_silent w st (bump env (bump env st)) rfl rfl rfl)
                    (stepOk_comp w (bump env (bump env st)) _ _ _ _
                      (stepOk_enter w (bump env (bump env st)) (a ++ [name]) i hmem)
                      (ih (a ++ [name]) (r ++ [name]) children.names children _)))
                  (ih a r ns rest _)
            | link t =>
              simp only []
              cases hL : env.fs.resolveLink t with
              | none => simp [readdirE, hL] at hR
              | some pr =>
                have hch : children = pr.2 := by
                  simp only [readdirE, hL] at hR
                  injection hR with h3
                  exact h3.symm
                subst hch
                simp only []
                by_cases hmem : pr.1 ∈ (bump env (bump env (bump env st))).walkedPaths
                · rw [if_pos hmem]
                  exact stepOk_comp w st _ _ [] _
                    (stepOk_silent w st (bump env (bump env (bump env st))) rfl rfl rfl)
                    (ih a r ns rest _)
                · rw [if_neg hmem]
                  exact stepOk_comp w st _ _ _ _
                    (stepOk_comp w st (bump env (bump env (bump env st))) _ [] _
                      (stepOk_silent w st (bump env (bump env (bump env st))) rfl rfl rfl)
                      (stepOk_comp w (bump env (bump env (bump env st))) _ _ _ _
                        (stepOk_enter w (bump env (bump env (bump env st))) pr.1 t hmem)
                        (ih (a ++ [name]) (r ++ [name]) pr.2.names pr.2 _)))
                    (ih a r ns rest _)

theorem tally_walked (w : Walker) (st : WalkerState) (p : Path) (s : EmitSite) :
    (tally w st p s).1.walkedPaths = st.walkedPaths := by
  simp only [tally]
  split <;> rfl

theorem tally_fuelOut (w : Walker) (st : WalkerState) (p : Path) (s : EmitSite) :
    (tally w st p s).1.fuelOut = st.fuelOut := by
  simp only [tally]
  split <;> rfl

theorem walkLoop_walked_mono (env : WalkEnv) (w : Walker) (f : Nat) (a r : Path)
    (ns : List String) (pend : FSEntries) (st : WalkerState) :
    ∀ x, x ∈ st.walkedPaths →
      x ∈ (walkLoop env w f a r ns pend st).1.walkedPaths := by
  intro x hx
  rw [(walkLoop_main env w f a r ns pend st).1]
  exact List.mem_append_right _ hx

theorem walkLoop_unCount_le (env : WalkEnv) (w : Walker) (f : Nat) (a r : Path)
    (ns : List String) (pend : FSEntries) (st : WalkerState) :
    unCount env.fs (walkLoop env w f a r ns pend st).1.walkedPaths ≤
      unCount env.fs st.walkedPaths :=
  unCount_mono env.fs st.walkedPaths _ (walkLoop_walked_mono env w f a r ns pend st)

theorem walkLoop_fuel (env : WalkEnv) (w : Walker) :
    ∀ (f : Nat) (a r : Path) (ns : List String) (pend : FSEntries)
      (st : WalkerState),
    unCount env.fs st.walkedPaths * (rootsSize env.fs.roots + 1) + sizeL pend < f →
    (walkLoop env w f a r ns pend st).1.fuelOut = st.fuelOut := by
  intro f
  induction f with
  | zero =>
    intro a r ns pend st hpsi
    exact absurd hpsi (Nat.not_lt_zero _)
  | succ f ih =>
    intro a r ns pend st hpsi
    cases pend with
    | nil => simp only [walkLoop]
    | cons name entry rest =>
      simp only [walkLoop]
      have hsz1 := sizeE_pos entry
      simp only [sizeL] at hpsi
      split
      · exact ih a r ns rest st (by omega)
      · next h1 =>
        generalize (if rawPatternIs w name then ([] : List String) else ns) = sibs
        split
        · exact ih a r ns rest st (by omega)
        · next h2 =>
          cases hR : readdirE env.fs entry with
          | error code =>
            simp only []
            by_cases hg : code = "ENOTDIR" ∧ (bump env st).isCanceled = false ∧
                (bump env st).isLimitHit = false
            · rw [if_pos hg]
              by_cases hm2 : (isFilePatternMatch w name (r ++ [name]) &&
                  includeOkW w (r ++ [name]) []) = true
              · rw [if_pos hm2]
                refine Eq.trans (ih a r ns rest _ ?_)
                  (Eq.trans (tally_fuelOut w (bump env st) (a ++ [name]) .walked) rfl)
                rw [tally_walked]
                show unCount env.fs st.walkedPaths * (rootsSize env.fs.roots + 1) +
                  sizeL rest < f
                omega
              · rw [if_neg hm2]
                refine Eq.trans (ih a r ns rest _ ?_) rfl
                show unCount env.fs st.walkedPaths * (rootsSize env.fs.roots + 1) +
                  sizeL rest < f
                omega
            · rw [if_neg hg]
              refine Eq.trans (ih a r ns rest _ ?_) rfl
              show unCount env.fs st.walkedPaths * (rootsSize env.fs.roots + 1) +
                sizeL rest < f
              omega
          | ok children =>
            cases entry with
            | file => simp [readdirE] at hR
            | bad c => simp [readdirE] at hR
            | dir i ch =>
              have hch : children = ch := by
                simp only [readdirE] at hR
                injection hR with h3
                exact h3.symm
              subst hch
              simp only [sizeE] at hpsi
              simp only []
              have h6 : unCount env.fs ((a ++ [name]) :: st.walkedPaths) ≤
                  unCount env.fs st.walkedPaths :=
                unCount_mono env.fs st.walkedPaths _
                  (fun x hx => List.mem_cons_of_mem _ hx)
              have h7 := Nat.mul_le_mul_right (rootsSize env.fs.roots + 1) h6
              by_cases hmem : (a ++ [name]) ∈ (bump env (bump env st)).walkedPaths
              · rw [if_pos hmem]
                refine Eq.trans (ih a r ns rest _ ?_) rfl
                show unCount env.fs st.walkedPaths * (rootsSize env.fs.roots + 1) +
                  sizeL rest < f
                omega
              · rw [if_neg hmem]
                refine Eq.trans (ih a r ns rest _ ?_)
                  (Eq.trans (ih (a ++ [name]) (r ++ [name]) children.names children _ ?_) rfl)
                · show unCount env.fs (walkLoop env w f (a ++ [name]) (r ++ [name])
                      children.names children
                      { bump env (bump env st) with
                          walkedPaths :=
                            (a ++ [name]) :: (bump env (bump env st)).walkedPaths }).1.walkedPaths *
                      (rootsSize env.fs.roots + 1) + sizeL rest < f
                  have h5 := walkLoop_unCount_le env w f (a ++ [name]) (r ++ [name])
                    children.names children
                    { bump env (bump env st) with
                        walkedPaths := (a ++ [name]) :: (bump env (bump env st)).walkedPaths }
                  have h5b : unCount env.fs (walkLoop env w f (a ++ [name]) (r ++ [name])
                      children.names children
                      { bump env (bump env st) with
                          walkedPaths :=
                            (a ++ [name]) :: (bump env (bump env st)).walkedPaths }).1.walkedPaths ≤
                      unCount env.fs ((a ++ [name]) :: st.walkedPaths) := h5
                  have h8 := Nat.mul_le_mul_right (rootsSize env.fs.roots + 1)
                    (le_trans h5b h6)
                  omega
                · show unCount env.fs ((a ++ [name]) :: st.walkedPaths) *
                    (rootsSize env.fs.roots + 1) + sizeL children < f
                  omega
            | link t =>
              simp only [sizeE] at hpsi
              simp only []
              cases hL : env.fs.resolveLink t with
              | none => simp [readdirE, hL] at hR
              | some pr =>
                have hch : children = pr.2 := by
                  simp only [readdirE, hL] at hR
                  injection hR with h3
                  exact h3.symm
                subst hch
                simp only []
                have hspec := resolveLink_spec env.fs t pr.1 pr.2 hL
                by_cases hmem : pr.1 ∈ (bump env (bump env (bump env st))).walkedPaths
                · rw [if_pos hmem]
                  refine Eq.trans (ih a r ns rest _ ?_) rfl
                  show unCount env.fs st.walkedPaths * (rootsSize env.fs.roots + 1) +
                    sizeL rest < f
                  omega
                · rw [if_neg hmem]
                  have hmem2 : pr.1 ∉ st.walkedPaths := hmem
                  have hu := unCount_insert_lt env.fs st.walkedPaths pr.1 hspec.1 hmem2
                  have h7 : (unCount env.fs (pr.1 :: st.walkedPaths) + 1) *
                      (rootsSize env.fs.roots + 1) ≤
                      unCount env.fs st.walkedPaths * (rootsSize env.fs.roots + 1) :=
                    Nat.mul_le_mul_right _ hu
                  have h8 : (unCount env.fs (pr.1 :: st.walkedPaths) + 1) *
                      (rootsSize env.fs.roots + 1) =
                      unCount env.fs (pr.1 :: st.walkedPaths) *
                        (rootsSize env.fs.roots + 1) + (rootsSize env.fs.roots + 1) := by
                    ring
                  refine Eq.trans (ih a r ns rest _ ?_)
                    (Eq.trans (ih (a ++ [name]) (r ++ [name]) pr.2.names pr.2 _ ?_) rfl)
                  · show unCount env.fs (walkLoop env w f (a ++ [name]) (r ++ [name])
                        pr.2.names pr.2
                        { bump env (bump env (bump env st)) with
                            walkedPaths :=
                              pr.1 :: (bump env (bump env (bump env st))).walkedPaths }).1.walkedPaths *
                        (rootsSize env.fs.roots + 1) + sizeL rest < f
                    have h5 := walkLoop_unCount_le env w f (a ++ [name]) (r ++ [name])
                      pr.2.names pr.2
                      { bump env (bump env (bump env st)) with
                          walkedPaths :=
                            pr.1 :: (bump env (bump env (bump env st))).walkedPaths }
                    have h5b : unCount env.fs (walkLoop env w f (a ++ [name]) (r ++ [name])
                        pr.2.names pr.2
                        { bump env (bump env (bump env st)) with
                            walkedPaths :=
                              pr.1 :: (bump env (bump env (bump env st))).walkedPaths }).1.walkedPaths ≤
                        unCount env.fs (pr.1 :: st.walkedPaths) := h5
                    have h9 := Nat.mul_le_mul_right (rootsSize env.fs.roots + 1)
                      (le_trans h5b (le_of_lt hu))
                    omega
                  · show unCount env.fs (pr.1 :: st.walkedPaths) *
                      (rootsSize env.fs.roots + 1) + sizeL pr.2 < f
                    have h9 := hspec.2
                    omega

theorem tally_canceled (w : Walker) (st : WalkerState) (p : Path) (s : EmitSite) :
    (tally w st p s).1.isCanceled = st.isCanceled := by
  simp only [tally]
  split <;> rfl

theorem stepOk_uncounted (w : Walker) (st st' : WalkerState) (p : Path)
    (site : EmitSite) (c h : Bool) (hsite : isCountedSite site = false)
    (hW : st'.walkedPaths = st.walkedPaths)
    (hC : st'.resultCount = st.resultCount)
    (hH : st'.isLimitHit = st.isLimitHit) :
    StepOk w st st' [.emit p site c h] := by
  refine ⟨by simp [enterKeys, enterKeyOf, hW], ?_, by omega, ?_, ?_⟩
  · simp [countedEmitOk, hsite]
  · intro m hm hInv
    refine ⟨by rw [hH, hC, hInv], ?_⟩
    simp [countedLen, isCountedEmit, hsite, hC]
  · intro hx; rw [hW]; exact hx

theorem stepOk_enum (w : Walker) (st : WalkerState) (i : Nat) :
    StepOk w st st [.enum i] := by
  refine ⟨by simp [enterKeys, enterKeyOf], by simp [countedEmitOk], le_refl _, ?_, fun h => h⟩
  intro m hm hInv
  exact ⟨hInv, by simp [countedLen, isCountedEmit]⟩

theorem relPatternPhase_fields (env : WalkEnv) (w : Walker) (rootPath : Path)
    (st : WalkerState) :
    (relPatternPhase env w rootPath st).1.walkedPaths = st.walkedPaths
    ∧ (relPatternPhase env w rootPath st).1.resultCount = st.resultCount
    ∧ (relPatternPhase env w rootPath st).1.isLimitHit = st.isLimitHit
    ∧ (relPatternPhase env w rootPath st).1.fuelOut = st.fuelOut := by
  unfold relPatternPhase
  cases w.filePattern with
  | none => exact ⟨rfl, rfl, rfl, rfl⟩
  | some p =>
    simp only []
    split
    · split <;> exact ⟨rfl, rfl, rfl, rfl⟩
    · exact ⟨rfl, rfl, rfl, rfl⟩

theorem relPatternPhase_stepOk (env : WalkEnv) (w : Walker) (rootPath : Path)
    (st : WalkerState) :
    StepOk w st (relPatternPhase env w rootPath st).1
      (relPatternPhase env w rootPath st).2 := by
  unfold relPatternPhase
  cases w.filePattern with
  | none => exact stepOk_refl w st
  | some p =>
    simp only []
    split
    · split
      · exact stepOk_uncounted w st _ _ .relPattern _ _ rfl rfl rfl rfl
      · exact stepOk_silent w st _ rfl rfl rfl
    · exact stepOk_refl w st

theorem absPatternPhase_fields (env : WalkEnv) (w : Walker) (st : WalkerState) :
    (absPatternPhase env w st).1.walkedPaths = st.walkedPaths
    ∧ (absPatternPhase env w st).1.resultCount = st.resultCount
    ∧ (absPatternPhase env w st).1.isLimitHit = st.isLimitHit
    ∧ (absPatternPhase env w st).1.fuelOut = st.fuelOut := by
  unfold absPatternPhase
  cases w.filePattern with
  | none => exact ⟨rfl, rfl, rfl, rfl⟩
  | some p =>
    simp only []
    split
    · split
      · exact ⟨rfl, rfl, rfl, rfl⟩
      · split <;> exact ⟨rfl, rfl, rfl, rfl⟩
    · exact ⟨rfl, rfl, rfl, rfl⟩

theorem absPatternPhase_stepOk (env : WalkEnv) (w : Walker) (st : WalkerState) :
    StepOk w st (absPatternPhase env w st).1 (absPatternPhase env w st).2 := by
  unfold absPatternPhase
  cases w.filePattern with
  | none => exact stepOk_refl w st
  | some p =>
    simp only []
    split
    · split
      · exact stepOk_refl w st
      · split
        · exact stepOk_uncounted w st _ _ .absPattern _ _ rfl rfl rfl rfl
        · exact stepOk_silent w st _ rfl rfl rfl
    · exact stepOk_refl w st

theorem nativeLoop_main (env : WalkEnv) (w : Walker) (rootPath : Path)
    (fns : List (Path × List String)) :
    ∀ (cands : List Path) (st : WalkerState), st.isCanceled = false →
    StepOk w st (nativeLoop env w rootPath fns cands st).1
      (nativeLoop env w rootPath fns cands st).2
    ∧ (nativeLoop env w rootPath fns cands st).1.isCanceled = false
    ∧ (nativeLoop env w rootPath fns cands st).1.fuelOut = st.fuelOut := by
  intro cands
  induction cands with
  | nil =>
    intro st hc
    exact ⟨stepOk_refl w st, hc, rfl⟩
  | cons p rest ih =>
    intro st hc
    simp only [nativeLoop]
    split
    · exact ih st hc
    · next hHit =>
      rw [Bool.not_eq_true] at hHit
      split
      all_goals
        split
        · exact ih st hc
        · split
          · have ht := stepOk_tally w st p .native rfl hHit hc
            have htc : (tally w st p .native).1.isCanceled = false := by
              rw [tally_canceled]; exact hc
            obtain ⟨ihS, ihC, ihF⟩ := ih (tally w st p .native).1 htc
            refine ⟨stepOk_comp w st _ _ _ _ ht ihS, ihC, ?_⟩
            rw [ihF, tally_fuelOut]
          · exact ih st hc

theorem nativeClose_main (env : WalkEnv) (w : Walker) (rootPath : Path)
    (st : WalkerState) :
    StepOk w st (nativeClose env w rootPath st).1 (nativeClose env w rootPath st).2
    ∧ (nativeClose env w rootPath st).1.fuelOut = st.fuelOut := by
  unfold nativeClose
  simp only []
  split
  · exact ⟨stepOk_silent w st _ rfl rfl rfl, rfl⟩
  · next hc =>
    rw [Bool.not_eq_true] at hc
    obtain ⟨hS, _, hF⟩ := nativeLoop_main env w rootPath (groupNames (env.nativeLines rootPath))
      ((groupByParent (env.nativeLines rootPath)).filter
        (fun kv => !ancestorExcl (fun rel => exclMatchW w rel []) (kv.1.drop rootPath.length))
        |>.map (fun kv => kv.2)).flatten
      { bump env st with runningNative := false } hc
    refine ⟨stepOk_comp w st _ _ [] _ (stepOk_silent w st _ rfl rfl rfl) hS, ?_⟩
    rw [hF]
    rfl

theorem unCount_le_canonCount (fs : FSModel) (walked : List Path) :
    unCount fs walked ≤ (canonAll fs).dedup.length :=
  List.length_filter_le _ _

theorem processRoot_main (env : WalkEnv) (w : Walker) (root : Path × FSEntry)
    (st : WalkerState) (hroot : sizeE root.2 ≤ rootsSize env.fs.roots) :
    StepOk w st (processRoot env w root st).1 (processRoot env w root st).2.1
    ∧ (processRoot env w root st).2.2 = none
    ∧ (processRoot env w root st).1.fuelOut = st.fuelOut := by
  unfold processRoot
  by_cases h1 : ((bump env st).isCanceled || (bump env st).isLimitHit) = true
  · rw [if_pos h1]
    exact ⟨stepOk_silent w st _ rfl rfl rfl, rfl, rfl⟩
  · rw [if_neg h1]
    cases hR : readdirE env.fs root.2 with
    | ok files =>
      simp only []
      have hrel := relPatternPhase_stepOk env w root.1 (bump env st)
      have hrf := relPatternPhase_fields env w root.1 (bump env st)
      have hsz : sizeL files ≤ rootsSize env.fs.roots := by
        cases hE : root.2 with
        | file => rw [hE] at hR; simp [readdirE] at hR
        | bad c => rw [hE] at hR; simp [readdirE] at hR
        | dir i ch =>
          rw [hE] at hR
          simp only [readdirE] at hR
          injection hR with h3
          subst h3
          rw [hE] at hroot
          simp only [sizeE] at hroot
          omega
        | link t =>
          rw [hE] at hR
          simp only [readdirE] at hR
          cases hL : env.fs.resolveLink t with
          | none => rw [hL] at hR; simp at hR
          | some pr =>
            rw [hL] at hR
            simp only [Except.ok.injEq] at hR
            subst hR
            exact le_of_lt (resolveLink_spec env.fs t pr.1 pr.2 hL).2
      by_cases hFast : w.disableFastFileLookup = true
      · rw [if_pos hFast]
        have hwl := walkLoop_main env w (walkFuel env) root.1 [] files.names files
          (relPatternPhase env w root.1 (bump env st)).1
        have hfe : (walkLoop env w (walkFuel env) root.1 [] files.names files
            (relPatternPhase env w root.1 (bump env st)).1).1.fuelOut =
            (relPatternPhase env w root.1 (bump env st)).1.fuelOut := by
          apply walkLoop_fuel
          show unCount env.fs
              (relPatternPhase env w root.1 (bump env st)).1.walkedPaths *
              (rootsSize env.fs.roots + 1) + sizeL files <
            (canonAll env.fs).dedup.length * (rootsSize env.fs.roots + 1) +
              rootsSize env.fs.roots + 1
          have h5 := unCount_le_canonCount env.fs
            (relPatternPhase env w root.1 (bump env st)).1.walkedPaths
          have h6 := Nat.mul_le_mul_right (rootsSize env.fs.roots + 1) h5
          omega
        refine ⟨?_, rfl, ?_⟩
        · refine stepOk_comp w st _ _ _ _
            (stepOk_comp w st (bump env st) _ [] _
              (stepOk_silent w st (bump env st) rfl rfl rfl) hrel)
            (stepOk_comp w _ _ _ [WalkEvent.enum (rootEnumId root.2)] _
              (stepOk_enum w _ (rootEnumId root.2)) hwl)
        · rw [hfe, hrf.2.2.2]
          rfl
      · rw [if_neg hFast]
        obtain ⟨hncS, hncF⟩ := nativeClose_main env w root.1
          { (relPatternPhase env w root.1 (bump env st)).1 with runningNative := true }
        refine ⟨?_, rfl, ?_⟩
        · refine stepOk_comp w st (bump env st) _ [] _
            (stepOk_silent w st (bump env st) rfl rfl rfl) ?_
          refine stepOk_comp w (bump env st) _ _ _ _ hrel ?_
          exact stepOk_comp w _ _ _ [] _ (stepOk_silent w _ _ rfl rfl rfl) hncS
        · rw [hncF]
          exact hrf.2.2.2
    | error code =>
      simp only []
      by_cases hg : code = "ENOTDIR" ∧ (bump env st).isCanceled = false ∧
          (bump env st).isLimitHit = false
      · rw [if_pos hg]
        obtain ⟨hcode, hc1, hh1⟩ := hg
        by_cases hx : exclMatchW w root.1 [] = true
        · rw [if_pos hx]
          exact ⟨stepOk_silent w st _ rfl rfl rfl, rfl, rfl⟩
        · rw [if_neg hx]
          by_cases hm2 : (isFilePatternMatch w (baseName root.1) root.1 &&
              includeOkW w root.1 []) = true
          · rw [if_pos hm2]
            refine ⟨stepOk_comp w st (bump env st) _ [] _
              (stepOk_silent w st (bump env st) rfl rfl rfl)
              (stepOk_tally w (bump env st) root.1 .rootFile rfl hh1 hc1), rfl, ?_⟩
            rw [tally_fuelOut]
            rfl
          · rw [if_neg hm2]
            exact ⟨stepOk_silent w st _ rfl rfl rfl, rfl, rfl⟩
      · rw [if_neg hg]
        exact ⟨stepOk_silent w st _ rfl rfl rfl, rfl, rfl⟩

theorem rootsPhase_main (env : WalkEnv) (w : Walker) :
    ∀ (rs : List (Path × FSEntry)) (st : WalkerState),
    (∀ x ∈ rs, sizeE x.2 ≤ rootsSize env.fs.roots) →
    StepOk w st (rootsPhase env w rs st).1 (rootsPhase env w rs st).2.1
    ∧ (∀ e ∈ (rootsPhase env w rs st).2.2, e = none)
    ∧ (rootsPhase env w rs st).1.fuelOut = st.fuelOut := by
  intro rs
  induction rs with
  | nil =>
    intro st hrs
    exact ⟨stepOk_refl w st, by simp [rootsPhase], rfl⟩
  | cons root rest ih =>
    intro st hrs
    simp only [rootsPhase]
    obtain ⟨hS1, hE1, hF1⟩ := processRoot_main env w root st
      (hrs root (List.mem_cons_self _ _))
    obtain ⟨hS2, hE2, hF2⟩ := ih (processRoot env w root st).1
      (fun x hx => hrs x (List.mem_cons_of_mem _ hx))
    refine ⟨stepOk_comp w st _ _ _ _ hS1 hS2, ?_, by rw [hF2, hF1]⟩
    intro e he
    rcases List.mem_cons.mp he with rfl | hm
    · exact hE1
    · exact hE2 e hm

theorem walk_main (env : WalkEnv) (w : Walker) (st0 : WalkerState) :
    StepOk w (resetState st0) (walk env w st0).state (walk env w st0).events
    ∧ (walk env w st0).doneErr = none
    ∧ (walk env w st0).state.fuelOut = false := by
  unfold walk
  simp only []
  have habs := absPatternPhase_stepOk env w (resetState st0)
  have habf := absPatternPhase_fields env w (resetState st0)
  obtain ⟨hS, hE, hF⟩ := rootsPhase_main env w env.fs.roots
    (absPatternPhase env w (resetState st0)).1
    (fun x hx => sizeE_le_rootsSize x env.fs.roots hx)
  refine ⟨stepOk_comp w (resetState st0) _ _ _ _ habs hS, ?_, ?_⟩
  · cases hL : (rootsPhase env w env.fs.roots
        (absPatternPhase env w (resetState st0)).1).2.2 with
    | nil => rfl
    | cons e es =>
      exact hE e (by rw [hL]; exact List.mem_cons_self _ _)
  · rw [hF, habf.2.2.2]
    rfl

/-- C1 (amended): for a configuration whose `maxResults` is the nonzero
value `m`, one `walk` call delivers at most `m` results through the
counted traversal emissions (portable recursion, native loop, and
ENOTDIR root candidates); the immediate file-pattern results
(absolute-pattern probe and per-root relative-pattern probe) are
delivered without being counted, so they can push the total beyond `m`;
and the `isLimitHit` flag passed to `onDone` is true exactly when the
number of counted matching candidates exceeded `m` — after exactly `m`
delivered results with no further candidate it stays false. -/
theorem C1_counted_results_capped (env : WalkEnv) (cfg : RawSearch)
    (st0 : WalkerState) (m : Nat) (hm : cfg.maxResults = m) (hm0 : m ≠ 0) :
    countedLen (walk env (mkWalker cfg) st0).events ≤ m
    ∧ ((walk env (mkWalker cfg) st0).doneLimitHit = true ↔
        m < (walk env (mkWalker cfg) st0).state.resultCount) := by
  have hmax : (mkWalker cfg).maxResults = some m := by
    simp [mkWalker, hm, hm0]
  obtain ⟨hA, hB, hC, hD, hF⟩ := (walk_main env (mkWalker cfg) st0).1
  obtain ⟨hHit, hCount⟩ := hD m hmax (by simp [resetState])
  constructor
  · have h1 : min m (walk env (mkWalker cfg) st0).state.resultCount ≤ m :=
      Nat.min_le_left _ _
    have h2 : min m (resetState st0).resultCount = 0 := by simp [resetState]
    omega
  · have hdl : (walk env (mkWalker cfg) st0).doneLimitHit =
        (walk env (mkWalker cfg) st0).state.isLimitHit := rfl
    rw [hdl, hHit]
    simp [decide_eq_true_eq]

/-- Witness for C1 at a concrete input: the `d/g` search with
`maxResults = 1` against the `r/d/g` filesystem. -/
theorem C1_counted_results_capped_witness :
    ((1 : Nat) ≠ 0)
    ∧ (countedLen (walk relEnv (mkWalker ⟨some ⟨["d", "g"], false⟩, none, none, 1,
        false, true, fun pat cand _ => decide (cand = pat.segs)⟩) freshState).events ≤ 1
      ∧ ((walk relEnv (mkWalker ⟨some ⟨["d", "g"], false⟩, none, none, 1,
          false, true, fun pat cand _ => decide (cand = pat.segs)⟩) freshState).doneLimitHit = true ↔
          1 < (walk relEnv (mkWalker ⟨some ⟨["d", "g"], false⟩, none, none, 1,
            false, true, fun pat cand _ => decide (cand = pat.segs)⟩) freshState).state.resultCount)) :=
  ⟨by decide,
    C1_counted_results_capped relEnv
      ⟨some ⟨["d", "g"], false⟩, none, none, 1, false, true,
        fun pat cand _ => decide (cand = pat.segs)⟩ freshState 1 rfl (by decide)⟩

/-- Counterexample to C1 as stated: with `maxResults = 1`, the walk over
the `r/d/g` filesystem delivers two results through `onResult` (the
uncounted relative-pattern probe result plus the counted traversal
result) before `onDone`, and `onDone` still receives `isLimitHit =
false` although `1 = M` results (indeed more) were delivered. -/
theorem C1_two_results_no_limit_flag :
    cappedRelWalker.maxResults = some 1
    ∧ emitLen (walk relEnv cappedRelWalker freshState).events = 2
    ∧ (walk relEnv cappedRelWalker freshState).doneLimitHit = false := by
  decide

/-- C2 (amended): counted results are only ever emitted in a callback
turn where neither `isCanceled` nor `isLimitHit` is set (both snapshots
recorded at the emission are false, and both flags are monotone during a
walk, so once either flag is set no further counted result is emitted;
emitted results are never retracted — the trace is append-only).  The
uncounted file-pattern probe emissions check the flags only at an
earlier turn boundary, which the counterexample exploits. -/
theorem C2_no_counted_results_after_flags (env : WalkEnv) (w : Walker)
    (st0 : WalkerState) :
    (walk env w st0).events.all countedEmitOk = true :=
  ((walk_main env w st0).1).2.1

/-- Counterexample to C2 as stated: a `cancel()` arriving at the first
turn boundary — after `walk` started its absolute-pattern stat probe —
does not stop the probe's emission: the only event of the walk is a
result emitted while `isCanceled` is already true. -/
theorem C2_pattern_result_after_cancel :
    (walk cancelEnv absPatternWalker freshState).events =
      [WalkEvent.emit ["q", "f"] .absPattern true false] := by
  decide

/-- C3 (amended): a directory-read error coded ENOTDIR does make the
walker process the path as a file-match candidate (exclude, file
pattern and include checks followed by a counted emission), but no
directory-read error is ever propagated to `onDone`: every per-entry
callback of the fan-out reports a null error, so the error argument of
`onDone` is always null — errors other than ENOTDIR are silently
swallowed, they do not become the walk's terminal error. -/
theorem C3_enotdir_file_candidate_errors_swallowed :
    (∀ (env : WalkEnv) (w : Walker) (st0 : WalkerState),
      (walk env w st0).doneErr = none)
    ∧ (∀ (p : Path) (E I : Path → List String → Bool)
        (fz : FilePattern → List String → Bool → Bool),
        (walk ⟨⟨[(p, .file)]⟩, fun _ => false, false, fun _ => false, fun _ => []⟩
          (mkWalker ⟨none, some E, some I, 0, false, true, fz⟩) freshState).events =
          (if E p [] = true then []
           else if I p [] = true then [WalkEvent.emit p .rootFile false false]
           else [])) := by
  constructor
  · intro env w st0
    exact (walk_main env w st0).2.1
  · intro p E I fz
    by_cases hE : E p [] = true
    · simp [walk, resetState, freshState, absPatternPhase, mkWalker, rootsPhase,
        processRoot, bump, readdirE, exclMatchW, isFilePatternMatch, includeOkW,
        baseName, tally, hE]
    · by_cases hI : I p [] = true
      · simp [walk, resetState, freshState, absPatternPhase, mkWalker, rootsPhase,
          processRoot, bump, readdirE, exclMatchW, isFilePatternMatch, includeOkW,
          baseName, tally, hE, hI]
      · simp [walk, resetState, freshState, absPatternPhase, mkWalker, rootsPhase,
          processRoot, bump, readdirE, exclMatchW, isFilePatternMatch, includeOkW,
          baseName, tally, hE, hI]

/-- Counterexample to C3 as stated: a root whose directory read fails
with EACCES (not ENOTDIR) produces no event and `onDone` receives a
null error rather than that error as the walk's terminal error. -/
theorem C3_other_error_not_propagated :
    (walk badRootEnv plainWalker freshState).doneErr = none
    ∧ (walk badRootEnv plainWalker freshState).events = [] := by
  decide

/-- C4 (amended): every walk terminates — the recursion-depth fuel
`walkFuel`, sufficient by the termination argument (each guarded entry
either consumes a never-walked canonical directory path or descends
into a strictly smaller subtree), is never exhausted — and the
`walkedPaths`-guarded inner recursion enters each distinct key at most
once.  The keys are the resolved real path for symbolic-link entries
but the textual path for plain directories, and the root-level
enumeration is unguarded, so one resolved real path can still be
enumerated more than once (the counterexample reaches the root again
through a symlink). -/
theorem C4_walk_terminates_guarded_entries_unique (env : WalkEnv) (w : Walker)
    (st0 : WalkerState) :
    (walk env w st0).state.fuelOut = false
    ∧ (enterKeys (walk env w st0).events).Nodup := by
  obtain ⟨⟨hA, _, _, _, hF⟩, _, hFuel⟩ := walk_main env w st0
  refine ⟨hFuel, ?_⟩
  have hwn : (walk env w st0).state.walkedPaths.Nodup := by
    apply hF
    simp [resetState]
  rw [hA] at hwn
  have h2 : (resetState st0).walkedPaths = [] := rfl
  rw [h2, List.append_nil, List.nodup_reverse] at hwn
  exact hwn

/-- Counterexample to C4 as stated: in the filesystem whose root `r`
contains a symlink `self` back to `r`, the walk enumerates the children
of the directory with real identity 0 (the root) twice — once as the
root and once through the symlink — so a distinct resolved real path is
recursed into more than once. -/
theorem C4_real_path_enumerated_twice :
    enumIds (walk cycleEnv plainWalker freshState).events = [0, 0]
    ∧ ¬ (enumIds (walk cycleEnv plainWalker freshState).events).Nodup := by
  decide

/-- C7 (amended): `resetState` — which `walk` runs before anything else —
clears `walkedPaths`, `resultCount` and `isLimitHit` and kills a running
native subprocess, but preserves `isCanceled`; consequently a `walk`
call is insensitive to the previous walk's `walkedPaths`,
`resultCount`, `isLimitHit`, `runningNative` (and fuel bookkeeping),
while `isCanceled` is carried over rather than reset. -/
theorem C7_reset_clears_all_but_cancel :
    (∀ st : WalkerState,
      resetState st = ⟨[], 0, false, st.isCanceled, false, st.turn, false⟩)
    ∧ (∀ (env : WalkEnv) (w : Walker) (st : WalkerState) (ps : List Path)
        (n : Nat) (b rn fo : Bool),
        walk env w ⟨ps, n, b, st.isCanceled, rn, st.turn, fo⟩ = walk env w st) := by
  constructor
  · intro st
    rfl
  · intro env w st ps n b rn fo
    rfl

/-- Counterexample to C7 as stated: `resetState` does not reset
`isCanceled` — the flag survives the reset, and a walker canceled before
`walk` emits nothing, while the same walker with a fresh state emits
its root file result, so `walk` does not start from a fresh
`WalkState`. -/
theorem C7_cancel_flag_survives_reset :
    (resetState ⟨[], 5, true, true, true, 3, false⟩).isCanceled = true
    ∧ (walk fileRootEnv plainWalker ⟨[], 0, false, true, false, 0, false⟩).events = []
    ∧ (walk fileRootEnv plainWalker freshState).events =
        [WalkEvent.emit ["r"] .rootFile false false] := by
  decide

end FileSearch


namespace JsMode

theorem runCalls_snoc (calls : List (TextDocument × Workspace)) :
    ∀ (h : JsHost) (d : TextDocument) (wsp : Workspace),
    (runCalls h (calls ++ [(d, wsp)])).1 =
      { h with currentTextDocument := d, currentWorkspace := some wsp }
    ∧ ((runCalls h (calls ++ [(d, wsp)])).2.all (fun e => e == h.engine)) = true := by
  induction calls with
  | nil =>
    intro h d wsp
    constructor
    · rfl
    · simp [runCalls, JsHost.getLanguageService]
  | cons c rest ih =>
    intro h d wsp
    simp only [List.cons_append, runCalls]
    obtain ⟨ih1, ih2⟩ := ih (h.getLanguageService c.1 c.2).1 d wsp
    constructor
    · exact ih1
    · simp only [List.all_cons, Bool.and_eq_true]
      exact ⟨by simp [JsHost.getLanguageService], ih2⟩

/-- C5: on one host adapter built by `getLanguageServiceHost`, every
`getLanguageService` call in a sequence resolves to the single engine
instance created by the one-shot library load (the load count stays 1,
no duplicate loads), and each call overwrites the adapter's current
document and workspace with its arguments before returning — after the
last call the host answers engine queries (here `getScriptVersion` and
`getScriptFileNames`) against the most recently requested document. -/
theorem C5_single_engine_latest_document (k eid : Nat) (nf : String → String)
    (calls : List (TextDocument × Workspace)) (doc : TextDocument) (ws : Workspace) :
    ((runCalls (getLanguageServiceHost k eid nf) (calls ++ [(doc, ws)])).2.all
      (fun e => e == eid)) = true
    ∧ (runCalls (getLanguageServiceHost k eid nf) (calls ++ [(doc, ws)])).1.loadCount = 1
    ∧ (runCalls (getLanguageServiceHost k eid nf)
        (calls ++ [(doc, ws)])).1.currentTextDocument = doc
    ∧ (runCalls (getLanguageServiceHost k eid nf)
        (calls ++ [(doc, ws)])).1.currentWorkspace = some ws
    ∧ (runCalls (getLanguageServiceHost k eid nf)
        (calls ++ [(doc, ws)])).1.getScriptVersion (deschemeURI nf doc.uri) =
        toString doc.version
    ∧ (runCalls (getLanguageServiceHost k eid nf)
        (calls ++ [(doc, ws)])).1.getScriptFileNames =
        [deschemeURI nf doc.uri, "jquery"] := by
  obtain ⟨h1, h2⟩ := runCalls_snoc calls (getLanguageServiceHost k eid nf) doc ws
  refine ⟨?_, ?_, ?_, ?_, ?_, ?_⟩
  · exact h2
  · rw [h1]
    rfl
  · rw [h1]
  · rw [h1]
  · rw [h1]
    simp [JsHost.getScriptVersion, getLanguageServiceHost]
  · rw [h1]
    rfl


/-- C6: the code path of `doResolve` at the failing input.  A first
resolution succeeds and clears the `data` payload; the second
resolution of the same item then throws (the source reads
`item.data.offset` unconditionally), instead of succeeding with nothing
to add as the specification requires. -/
theorem C6_second_resolve_throws :
    doResolve (fun _ _ _ => some (["sig"], ["doc"])) "f"
      ⟨"foo", none, none, some ⟨"javascript", "u", 5⟩⟩ =
      .ok ⟨"foo", some "sig", some "doc", none⟩
    ∧ doResolve (fun _ _ _ => some (["sig"], ["doc"])) "f"
        ⟨"foo", some "sig", some "doc", none⟩ =
      .error "TypeError: cannot read offset of undefined item.data" := by
  constructor
  · rfl
  · rfl

/-- C10: every location `findDefinition` and `findReferences` return
carries the uri of the queried host document, and the number of
returned locations equals the number of engine entries surviving the
respective file-name filter (`fileName = jsDocument.uri` for
definitions, `fileName = deschemeURI jsDocument.uri` for references) —
engine results naming any other file are dropped, so neither operation
reports a cross-file location. -/
theorem C10_locations_stay_in_document (nf : String → String)
    (eds ers : Option (List EngineEntry)) (doc jsDoc : TextDocument) :
    (((findDefinition eds doc jsDoc).getD []).all (fun loc => loc.uri == doc.uri)) = true
    ∧ ((findDefinition eds doc jsDoc).getD []).length =
        ((eds.getD []).filter (fun e => e.fileName == jsDoc.uri)).length
    ∧ ((findReferences nf ers doc jsDoc).all (fun loc => loc.uri == doc.uri)) = true
    ∧ (findReferences nf ers doc jsDoc).length =
        ((ers.getD []).filter
          (fun e => e.fileName == deschemeURI nf jsDoc.uri)).length := by
  refine ⟨?_, ?_, ?_, ?_⟩
  · cases eds <;> simp [findDefinition] <;> exact fun x x1 _ _ hx => hx ▸ rfl
  · cases eds <;> simp [findDefinition]
  · cases ers <;> simp [findReferences] <;> exact fun x x1 _ _ hx => hx ▸ rfl
  · cases ers <;> simp [findReferences]

end JsMode

namespace JsMode

theorem collectStep_refl (acc : CollectAcc) : CollectStep acc acc :=
  ⟨fun h => h, fun _ hx => hx, fun h => h⟩

theorem collectStep_trans (a b c : CollectAcc) (h1 : CollectStep a b)
    (h2 : CollectStep b c) : CollectStep a c :=
  ⟨fun h => h2.1 (h1.1 h), fun x hx => h2.2.1 x (h1.2.1 x hx),
    fun h => h2.2.2 (h1.2.2 h)⟩

mutual
theorem collectItem_step (docUri : String) (jsDoc : TextDocument) (item : NavItem) :
    ∀ (lbl : Option String) (acc : CollectAcc),
    CollectStep acc (collectItem docUri jsDoc item lbl acc) := by
  cases item with
  | mk text kind spans children =>
    intro lbl acc
    simp only [collectItem]
    split
    · next hg =>
      refine collectStep_trans acc _ _ ?_
        (collectForest_step docUri jsDoc children (some text) _)
      refine ⟨?_, ?_, ?_⟩
      · intro hInv
        obtain ⟨hsig, hnd⟩ := hInv
        have hnew : (text, kind, (spans.headD ⟨0, 0⟩).start) ∉ acc.raws := by
          intro hmem
          exact hg.2 (hsig _ hmem)
        constructor
        · intro tr htr
          rcases List.mem_append.mp htr with hold | hnw
          · exact List.mem_cons_of_mem _ (hsig tr hold)
          · rw [List.mem_singleton] at hnw
            subst hnw
            exact List.mem_cons_self _ _
        · rw [List.nodup_append]
          refine ⟨hnd, List.nodup_singleton _, ?_⟩
          intro a ha hb
          rw [List.mem_singleton] at hb
          subst hb
          exact hnew ha
      · intro x hx
        exact List.mem_cons_of_mem _ hx
      · intro hall
        rw [List.all_append, hall]
        simp [notScript, hg.1]
    · exact collectForest_step docUri jsDoc children lbl acc
theorem collectForest_step (docUri : String) (jsDoc : TextDocument)
    (forest : NavForest) :
    ∀ (lbl : Option String) (acc : CollectAcc),
    CollectStep acc (collectForest docUri jsDoc forest lbl acc) := by
  cases forest with
  | nil =>
    intro lbl acc
    exact collectStep_refl acc
  | cons item rest =>
    intro lbl acc
    simp only [collectForest]
    exact collectStep_trans acc _ _ (collectItem_step docUri jsDoc item lbl acc)
      (collectForest_step docUri jsDoc rest lbl _)
end

/-- C8: `findDocumentSymbols` deduplicates by the (name, kind,
start-offset) signature and skips `script` pseudo-symbols: for every
navigation forest the emitted raw triples are pairwise distinct and
none of them is a `script` item; on the concrete scenario — a script
containing a class `C` with two functions named `foo` at offsets 10 and
50 — the result has two distinct `foo` entries, each with
`containerName` the nearest enclosing non-duplicate symbol `C`; and two
items agreeing on name, kind and start offset collapse into a single
entry. -/
theorem C8_symbol_dedup_skips_script :
    (∀ (docUri : String) (jsDoc : TextDocument) (forest : NavForest),
      (collectForest docUri jsDoc forest none ⟨[], [], []⟩).raws.Nodup
      ∧ ((collectForest docUri jsDoc forest none ⟨[], [], []⟩).raws.all notScript) = true)
    ∧ findDocumentSymbols scenDoc scenJsDoc (some scenForest) =
        [⟨"C", .class_, "test://host.html", ⟨⟨0, 0⟩, ⟨0, 55⟩⟩, none⟩,
         ⟨"foo", .function_, "test://host.html", ⟨⟨0, 10⟩, ⟨0, 13⟩⟩, some "C"⟩,
         ⟨"foo", .function_, "test://host.html", ⟨⟨0, 50⟩, ⟨0, 53⟩⟩, some "C"⟩]
    ∧ (findDocumentSymbols scenDoc scenJsDoc (some dupForest)).length = 1 := by
  refine ⟨?_, ?_, ?_⟩
  · intro docUri jsDoc forest
    obtain ⟨hInv, hMono, hScript⟩ := collectForest_step docUri jsDoc forest none ⟨[], [], []⟩
    have h1 := hInv ⟨by simp, List.nodup_nil⟩
    exact ⟨h1.2, hScript rfl⟩
  · decide
  · decide

theorem dropWhile_head_not {α : Type} (p : α → Bool) :
    ∀ (l : List α) (x : α) (xs : List α), l.dropWhile p = x :: xs → p x = false := by
  intro l
  induction l with
  | nil => intro x xs h; simp [List.dropWhile] at h
  | cons a t ih =>
    intro x xs h
    rw [List.dropWhile_cons] at h
    by_cases hp : p a = true
    · rw [if_pos hp] at h
      exact ih x xs h
    · rw [if_neg hp] at h
      injection h with h1 h2
      subst h1
      rw [Bool.not_eq_true] at hp
      exact hp

theorem offsetAt_positionAt (d : TextDocument) (o : Nat)
    (ho : o ≤ d.content.length) :
    offsetAt d (positionAt d o) = o := by
  have hmin : min o d.content.length = o := Nat.min_eq_left ho
  have happ : ((lineOffsets d).takeWhile (fun s => decide (s ≤ o))) ++
      ((lineOffsets d).dropWhile (fun s => decide (s ≤ o))) = lineOffsets d :=
    List.takeWhile_append_dropWhile (fun s => decide (s ≤ o)) (lineOffsets d)
  have hk1 : 1 ≤ ((lineOffsets d).takeWhile (fun s => decide (s ≤ o))).length := by
    rw [lineOffsets, List.takeWhile_cons]
    simp
  have hKle : ((lineOffsets d).takeWhile (fun s => decide (s ≤ o))).length ≤
      (lineOffsets d).length := by
    have hlena := congrArg List.length happ
    rw [List.length_append] at hlena
    omega
  have hpos : positionAt d o =
      ⟨((lineOffsets d).takeWhile (fun s => decide (s ≤ o))).length - 1,
        o - (lineOffsets d).getD
          (((lineOffsets d).takeWhile (fun s => decide (s ≤ o))).length - 1) 0⟩ := by
    simp only [positionAt, hmin]
  have hlo : (lineOffsets d).getD
      (((lineOffsets d).takeWhile (fun s => decide (s ≤ o))).length - 1) 0 ≤ o := by
    have h1 : (lineOffsets d).getD
        (((lineOffsets d).takeWhile (fun s => decide (s ≤ o))).length - 1) 0 =
        ((lineOffsets d).takeWhile (fun s => decide (s ≤ o))).getD
          (((lineOffsets d).takeWhile (fun s => decide (s ≤ o))).length - 1) 0 := by
      have hstep := List.getD_append
        ((lineOffsets d).takeWhile (fun s => decide (s ≤ o)))
        ((lineOffsets d).dropWhile (fun s => decide (s ≤ o))) 0
        (((lineOffsets d).takeWhile (fun s => decide (s ≤ o))).length - 1) (by omega)
      rw [happ] at hstep
      exact hstep
    rw [h1]
    have hlt : ((lineOffsets d).takeWhile (fun s => decide (s ≤ o))).length - 1 <
        ((lineOffsets d).takeWhile (fun s => decide (s ≤ o))).length := by omega
    have h2 : ((lineOffsets d).takeWhile (fun s => decide (s ≤ o))).getD
        (((lineOffsets d).takeWhile (fun s => decide (s ≤ o))).length - 1) 0 ∈
        (lineOffsets d).takeWhile (fun s => decide (s ≤ o)) := by
      rw [List.getD_eq_getElem _ _ hlt]
      exact List.getElem_mem _
    have h3 := List.mem_takeWhile_imp h2
    simpa using h3
  rw [hpos]
  unfold offsetAt
  simp only []
  rw [if_neg (by omega :
    ¬ (lineOffsets d).length ≤
      ((lineOffsets d).takeWhile (fun s => decide (s ≤ o))).length - 1)]
  by_cases hnext : ((lineOffsets d).takeWhile (fun s => decide (s ≤ o))).length - 1 + 1 <
      (lineOffsets d).length
  · rw [if_pos hnext]
    obtain ⟨x, xs, hx⟩ : ∃ x xs,
        (lineOffsets d).dropWhile (fun s => decide (s ≤ o)) = x :: xs := by
      cases hdd : (lineOffsets d).dropWhile (fun s => decide (s ≤ o)) with
      | nil =>
        exfalso
        have hlen : (lineOffsets d).length =
            ((lineOffsets d).takeWhile (fun s => decide (s ≤ o))).length := by
          conv_lhs => rw [← happ]
          rw [hdd]
          simp
        omega
      | cons x xs => exact ⟨x, xs, rfl⟩
    have hxo : o < x := by
      have h4 := dropWhile_head_not (fun s => decide (s ≤ o)) (lineOffsets d) x xs hx
      simpa using h4
    have hnth : (lineOffsets d).getD
        (((lineOffsets d).takeWhile (fun s => decide (s ≤ o))).length - 1 + 1) 0 = x := by
      have hKK : ((lineOffsets d).takeWhile (fun s => decide (s ≤ o))).length - 1 + 1 =
          ((lineOffsets d).takeWhile (fun s => decide (s ≤ o))).length := by omega
      rw [hKK]
      have hstep := List.getD_append_right
        ((lineOffsets d).takeWhile (fun s => decide (s ≤ o)))
        ((lineOffsets d).dropWhile (fun s => decide (s ≤ o))) 0
        (((lineOffsets d).takeWhile (fun s => decide (s ≤ o))).length) (le_refl _)
      rw [happ] at hstep
      rw [hstep, Nat.sub_self, hx]
      rfl
    rw [hnth]
    omega
  · rw [if_neg hnext]
    omega

/-- C9 (amended): for a document snapshot and an engine span whose start
is defined and whose whole extent lies within the document
(`start + length ≤ content length`), converting the span to an editor
range with `convertRange` and the range's endpoints back to offsets
with `offsetAt` recovers the pair (start, start + length).  When the
span reaches beyond the document the end offset is clamped and the
round trip fails, which the counterexample records. -/
theorem C9_span_round_trip (d : TextDocument) (s l : Nat)
    (h : s + l ≤ d.content.length) :
    offsetAt d (convertRange d ⟨some s, some l⟩).start = s
    ∧ offsetAt d (convertRange d ⟨some s, some l⟩).stop = s + l := by
  constructor
  · exact offsetAt_positionAt d s (by omega)
  · exact offsetAt_positionAt d (s + l) h

/-- Witness for C9 at a concrete input: the span (1, 1) in the
two-character document `ab`. -/
theorem C9_span_round_trip_witness :
    ((1 : Nat) + 1 ≤ (TextDocument.create "u" "javascript" 1 ['a', 'b']).content.length)
    ∧ (offsetAt (TextDocument.create "u" "javascript" 1 ['a', 'b'])
        (convertRange (TextDocument.create "u" "javascript" 1 ['a', 'b'])
          ⟨some 1, some 1⟩).start = 1
      ∧ offsetAt (TextDocument.create "u" "javascript" 1 ['a', 'b'])
          (convertRange (TextDocument.create "u" "javascript" 1 ['a', 'b'])
            ⟨some 1, some 1⟩).stop = 1 + 1) :=
  ⟨by decide,
    C9_span_round_trip (TextDocument.create "u" "javascript" 1 ['a', 'b']) 1 1 (by decide)⟩

/-- Counterexample to C9 as stated: in the two-character document `ab`
the span (1, 5) has its start within the document, yet the converted
range's end maps back to offset 2 (clamped to the document length), not
to the original 1 + 5 = 6. -/
theorem C9_overlong_span_clamped :
    offsetAt (TextDocument.create "u" "javascript" 1 ['a', 'b'])
      (convertRange (TextDocument.create "u" "javascript" 1 ['a', 'b'])
        ⟨some 1, some 5⟩).stop = 2
    ∧ ((2 : Nat) ≠ 1 + 5) := by
  decide

end JsMode